import Mathlib

/-!
Verification development for the exception stack-trace capture and
materialization engine of `src/hotspot/share/classfile/javaClasses.cpp`
(`BacktraceBuilder`, `BacktraceIterator`, `java_lang_Throwable::fill_in_stack_trace`,
`java_lang_Throwable::get_stack_trace_elements`, `java_lang_StackTraceElement::fill_in`).

The C++ code is shallowly embedded: oops/handles become plain values, the
chunked backtrace becomes a list of chunk records addressed by allocation
index (object links `trace_next_offset` become indices into that list), and
TRAPS-style fallible allocation is modelled by an explicit allocation oracle
in a second, `Except`-valued layer.
-/

namespace JavaClasses

/-- Modelled from the spec: `java_lang_Throwable::trace_chunk_size` is declared in
`javaClasses.hpp`, which is not part of this repository snapshot.  The spec
(section 3) says chunk capacity is a fixed constant, e.g. 32. -/
def trace_chunk_size : Nat := 32

/-- After this many redefines, the stack trace is unreliable (javaClasses.cpp:1935). -/
def MAX_VERSION : Nat := 65535

/-- The sentinel bci for synchronization entry frames; `BacktraceBuilder::push`
smears it to 0 (javaClasses.cpp:2068, "Smear the -1 bci to 0"). -/
def SynchronizationEntryBCI : Int := -1

/-- Modelled from the spec: `Backtrace::merge_bci_and_version` is declared in
`javaClasses.hpp`, which is missing from this snapshot.  The spec (section 3)
records the packed column as `packed(bci: u16-range, version: u16-range)`:
the bci occupies the high 16 bits, the version the low 16 bits, each clamped
to the u16 range. -/
def merge_bci_and_version (bci : Int) (version : Nat) : Nat :=
  (bci.toNat % 65536) * 65536 + min version 65535

/-- Modelled from the spec: inverse of the packing, bci half. -/
def bci_at (merged : Nat) : Nat := merged / 65536

/-- Modelled from the spec: inverse of the packing, version half. -/
def version_at (merged : Nat) : Nat := merged % 65536

/-- A class mirror reference (`method->method_holder()->java_mirror()`),
abstracted to an identifier.  A written mirror slot is never null. -/
abbrev Mirror := Nat

/-- The data the capture loop reads off a `Method*`: its redefinition-stable
original method table index, the declaring class's constant-pool version,
its name symbol, its holder klass and java mirror, and the hidden flag. -/
structure MethodRec where
  orig_method_idnum : Nat
  version : Nat
  name : Nat
  holder : Nat
  mirror : Mirror
  is_hidden : Bool
deriving Repr, DecidableEq

/-- One frame yielded by the stack walker: a method plus a byte-code index. -/
structure Frame where
  method : MethodRec
  bci : Int
deriving Repr, DecidableEq

/-- One backtrace chunk: the four parallel columns (each of length
`trace_chunk_size`), the `trace_hidden_offset` slot (a boxed Boolean or null)
and the `trace_next_offset` link, kept as an index into the allocation list. -/
structure ChunkData where
  methods : List Nat
  bcis : List Nat
  mirrors : List (Option Mirror)
  names : List (Option Nat)
  hidden : Option Bool
  nextIdx : Option Nat
deriving Repr, DecidableEq

/-- A freshly allocated chunk: short/int arrays are zero-filled, object and
symbol arrays are null-filled, the hidden slot and next link are null
(`BacktraceBuilder::expand`, javaClasses.cpp:2028-2050). -/
def ChunkData.fresh : ChunkData :=
  { methods := List.replicate trace_chunk_size 0
    bcis := List.replicate trace_chunk_size 0
    mirrors := List.replicate trace_chunk_size none
    names := List.replicate trace_chunk_size none
    hidden := none
    nextIdx := none }

/-- The values `push` stores for one frame: the u2 method slot id, the packed
bci-and-version word, the name symbol and the holder mirror. -/
structure Rec where
  idnum : Nat
  merged : Nat
  name : Nat
  mirror : Mirror
deriving Repr, DecidableEq

/-- What `BacktraceBuilder::push` computes before writing: the bci smear and
the merged bci/version word (javaClasses.cpp:2064-2087); `ushort_at_put`
truncates the method id to u2. -/
def recOf (m : MethodRec) (bci : Int) : Rec :=
  let bci' := if bci = SynchronizationEntryBCI then 0 else bci
  { idnum := m.orig_method_idnum % 65536
    merged := merge_bci_and_version bci' m.version
    name := m.name
    mirror := m.mirror }

/-- Point update of a list, used for stores through a chunk reference. -/
def updateAt {α : Type} : List α → Nat → (α → α) → List α
  | [], _, _ => []
  | a :: l, 0, f => f a :: l
  | a :: l, n + 1, f => a :: updateAt l n f

/-- Write one frame record at column position `i` of a chunk (the four
`*_at_put` stores of `BacktraceBuilder::push`). -/
def ChunkData.write (c : ChunkData) (i : Nat) (r : Rec) : ChunkData :=
  { c with
    methods := c.methods.set i r.idnum
    bcis := c.bcis.set i r.merged
    mirrors := c.mirrors.set i (some r.mirror)
    names := c.names.set i (some r.name) }

/-- The state of a `BacktraceBuilder`: the chunks in allocation order
(`_backtrace` is chunk 0), `_head` as an index into that list, the write
cursor `_index`, whether `_has_hidden_top_frame` is non-null, and a counter
of allocation events (used by the fallible layer's oracle). -/
structure BacktraceBuilder where
  chunks : List ChunkData
  headIdx : Option Nat
  index : Nat
  hasHiddenTopFrame : Bool
  allocCount : Nat
deriving Repr, DecidableEq

namespace BacktraceBuilder

/-- `BacktraceBuilder::expand` (javaClasses.cpp:2024-2058): allocate a fresh
chunk, make the old head's `trace_next_offset` point at it (if a head
exists), and make it the new head with cursor 0. -/
def expand (b : BacktraceBuilder) : BacktraceBuilder :=
  let newIdx := b.chunks.length
  let chunks1 := b.chunks ++ [ChunkData.fresh]
  let chunks2 :=
    match b.headIdx with
    | none => chunks1
    | some i => updateAt chunks1 i (fun ch => { ch with nextIdx := some newIdx })
  { chunks := chunks2
    headIdx := some newIdx
    index := 0
    hasHiddenTopFrame := b.hasHiddenTopFrame
    allocCount := b.allocCount + 1 }

/-- The fresh-backtrace constructor `BacktraceBuilder(TRAPS)`
(javaClasses.cpp:2001-2005): start from nothing and expand once. -/
def mkNew : BacktraceBuilder :=
  expand { chunks := [], headIdx := none, index := 0,
           hasHiddenTopFrame := false, allocCount := 0 }

/-- The four column stores plus the cursor increment at the tail of
`BacktraceBuilder::push`.  A builder with no head chunk cannot be written
(the C++ code only ever pushes on a constructed builder). -/
def pushWrite (b : BacktraceBuilder) (r : Rec) : BacktraceBuilder :=
  match b.headIdx with
  | none => b
  | some h =>
      { b with
        chunks := updateAt b.chunks h (fun ch => ch.write b.index r)
        index := b.index + 1 }

/-- `BacktraceBuilder::push` (javaClasses.cpp:2064-2089): smear the bci,
expand when the cursor has reached the chunk capacity, then write at the
cursor. -/
def push (b : BacktraceBuilder) (m : MethodRec) (bci : Int) : BacktraceBuilder :=
  let r := recOf m bci
  if trace_chunk_size ≤ b.index then (b.expand).pushWrite r else b.pushWrite r

/-- `BacktraceBuilder::set_has_hidden_top_frame` (javaClasses.cpp:2091-2099):
if the marker is still null, allocate a boxed `true` and store it in the
head chunk's hidden slot; otherwise do nothing. -/
def set_has_hidden_top_frame (b : BacktraceBuilder) : BacktraceBuilder :=
  if b.hasHiddenTopFrame then b
  else
    match b.headIdx with
    | none => b
    | some h =>
        { b with
          hasHiddenTopFrame := true
          allocCount := b.allocCount + 1
          chunks := updateAt b.chunks h (fun ch => { ch with hidden := some true }) }

end BacktraceBuilder

/-- What `BacktraceIterator::next` reads out of a chunk for one frame
(javaClasses.cpp:2138-2144): the mirror handle, the u2 method id, and the
version/bci halves of the packed word, plus the name symbol. -/
structure BacktraceElement where
  mirror : Mirror
  method_id : Nat
  version : Nat
  bci : Nat
  name : Option Nat
deriving Repr, DecidableEq

/-- The element the iterator will produce for a written record. -/
def elemOf (r : Rec) : BacktraceElement :=
  { mirror := r.mirror
    method_id := r.idnum
    version := version_at r.merged
    bci := bci_at r.merged
    name := some r.name }

/-- Dereference a chunk link.  Links produced by `expand` always point at an
allocated chunk; a dangling index reads as an unwritten chunk (the iterator
stops there, exactly as on a null mirror slot). -/
def chunkAt (heap : List ChunkData) (c : Nat) : ChunkData :=
  (heap[c]?).getD ChunkData.fresh

/-- The `while (iter.repeat()) { iter.next() }` consumer loop over a
backtrace (javaClasses.cpp:2113-2158): starting from chunk `c` at column
`idx`, yield elements while the mirror slot is non-null, stepping to the
`trace_next_offset` chunk when the cursor runs off the chunk.  `fuel` only
bounds the recursion; every run on a well-formed store terminates before
exhausting it. -/
def iterElems (heap : List ChunkData) : Nat → Option Nat → Nat → List BacktraceElement
  | 0, _, _ => []
  | _ + 1, none, _ => []
  | fuel + 1, some c, idx =>
    match (((chunkAt heap c).mirrors[idx]?).getD none) with
    | none => []
    | some mir =>
        { mirror := mir
          method_id := (((chunkAt heap c).methods[idx]?).getD 0)
          version := version_at (((chunkAt heap c).bcis[idx]?).getD 0)
          bci := bci_at (((chunkAt heap c).bcis[idx]?).getD 0)
          name := (((chunkAt heap c).names[idx]?).getD none) } ::
        (if trace_chunk_size ≤ idx + 1
         then iterElems heap fuel (chunkAt heap c).nextIdx 0
         else iterElems heap fuel (some c) (idx + 1))

/-- Iterating a (possibly null) backtrace from its first chunk, as
`BacktraceIterator` is used by every consumer: a null store yields nothing. -/
def backtraceElems : Option (List ChunkData) → List BacktraceElement
  | none => []
  | some heap => iterElems heap (heap.length * trace_chunk_size + 1) (some 0) 0

/-- The configuration and ambient context read by one capture pass:
`StackTraceInThrowable`, `MaxJavaStackTraceDepth` (0 = unlimited),
`ShowHiddenFrames`, the two vmSymbols compared against method names, and
`throwable->is_a(klass)` for the throwable being filled in.
(`object_init_name` stands for the `<init>` name symbol,
`vmSymbols::object_initializer_name`.) -/
structure CaptureEnv where
  stackTraceInThrowable : Bool
  max_depth : Nat
  show_hidden_frames : Bool
  fillInStackTrace_name : Nat
  object_init_name : Nat
  throwable_is_a : Nat → Bool

/-- How the capture loop body disposes of one walked frame. -/
inductive FrameAction where
  | elideFiller
  | elideInit
  | elideHidden
  | record
deriving Repr, DecidableEq

/-- The elision ladder of `fill_in_stack_trace` for one frame
(javaClasses.cpp:2407-2437): while `skip_fillInStackTrace_check` is still
false, a frame whose method is the throwable's own `fillInStackTrace` is
skipped without touching the flags; the first non-matching frame stops that
check forever.  Then, symmetrically, leading `<init>` frames of the
throwable's class hierarchy; then hidden frames when `ShowHiddenFrames` is
off.  Returns the action together with the updated check flags. -/
def classifyFrame (env : CaptureEnv) (m : MethodRec)
    (skipF skipI : Bool) : FrameAction × Bool × Bool :=
  if !skipF && m.name == env.fillInStackTrace_name && env.throwable_is_a m.holder then
    (.elideFiller, skipF, skipI)
  else
    let skipF := true
    if !skipI && m.name == env.object_init_name && env.throwable_is_a m.holder then
      (.elideInit, skipF, skipI)
    else
      let skipI := true
      if m.is_hidden && !env.show_hidden_frames then
        (.elideHidden, skipF, skipI)
      else
        (.record, skipF, skipI)

/-- The mutable state of the fresh-capture loop: the builder, `total_count`,
and the two one-way check flags (both start false). -/
structure CapState where
  bt : BacktraceBuilder
  total_count : Nat
  skipF : Bool
  skipI : Bool
deriving Repr, DecidableEq

/-- The fresh-capture loop of `java_lang_Throwable::fill_in_stack_trace`
(javaClasses.cpp:2352-2440) over the logical frames yielded by the stack
walker, innermost first.  The loop guard `max_depth == 0 || max_depth !=
total_count` is re-checked before each frame; a hidden frame seen while
`total_count == 0` additionally sets the one-shot hidden-top-frame marker. -/
def captureLoop (env : CaptureEnv) : List Frame → CapState → CapState
  | [], s => s
  | f :: fs, s =>
    if env.max_depth ≠ 0 ∧ env.max_depth = s.total_count then s
    else
      match classifyFrame env f.method s.skipF s.skipI with
      | (.elideFiller, sF, sI) => captureLoop env fs { s with skipF := sF, skipI := sI }
      | (.elideInit, sF, sI) => captureLoop env fs { s with skipF := sF, skipI := sI }
      | (.elideHidden, sF, sI) =>
          let bt := if s.total_count = 0 then s.bt.set_has_hidden_top_frame else s.bt
          captureLoop env fs { bt := bt, total_count := s.total_count, skipF := sF, skipI := sI }
      | (.record, sF, sI) =>
          captureLoop env fs
            { bt := s.bt.push f.method f.bci, total_count := s.total_count + 1,
              skipF := sF, skipI := sI }

/-- Specification-side companion of the loop: the frames that survive elision
and hidden-frame suppression, i.e. exactly those the loop pushes into the
store, in push order. -/
def specSurvivors (env : CaptureEnv) : List Frame → Bool → Bool → Nat → List Frame
  | [], _, _, _ => []
  | f :: fs, skipF, skipI, cnt =>
    if env.max_depth ≠ 0 ∧ env.max_depth = cnt then []
    else
      match classifyFrame env f.method skipF skipI with
      | (.record, sF, sI) => f :: specSurvivors env fs sF sI (cnt + 1)
      | (.elideHidden, sF, sI) => specSurvivors env fs sF sI cnt
      | (.elideFiller, sF, sI) => specSurvivors env fs sF sI cnt
      | (.elideInit, sF, sI) => specSurvivors env fs sF sI cnt

/-- Specification-side companion of the loop's hidden-marker side effect:
whether some frame classified as a suppressed hidden frame is encountered
while `total_count` is still 0. -/
def hiddenTopMarked (env : CaptureEnv) : List Frame → Bool → Bool → Nat → Bool
  | [], _, _, _ => false
  | f :: fs, skipF, skipI, cnt =>
    if env.max_depth ≠ 0 ∧ env.max_depth = cnt then false
    else
      match classifyFrame env f.method skipF skipI with
      | (.record, sF, sI) => hiddenTopMarked env fs sF sI (cnt + 1)
      | (.elideHidden, sF, sI) => decide (cnt = 0) || hiddenTopMarked env fs sF sI cnt
      | (.elideFiller, sF, sI) => hiddenTopMarked env fs sF sI cnt
      | (.elideInit, sF, sI) => hiddenTopMarked env fs sF sI cnt

/-- The fields of a `java.lang.Throwable` this code touches: the `backtrace`
oop (our chunk list, rooted at chunk 0), the Java-level `stackTrace` field,
and the recorded `depth`. -/
structure Throwable where
  backtrace : Option (List ChunkData)
  stackTrace : Option Unit
  depth : Nat
deriving Repr, DecidableEq

/-- `java_lang_Throwable::fill_in_stack_trace(throwable, method, TRAPS)`
(javaClasses.cpp:2306-2447), with allocation always succeeding.  The walked
logical frames are `frames` (innermost first); `has_last_Java_frame` and the
caller-supplied `method` drive the early no-Java-frame branch, which pushes a
single frame at bci 0 only when `max_depth >= 1` and a method was supplied. -/
def fill_in_stack_trace (env : CaptureEnv) (has_last_Java_frame : Bool)
    (method : Option MethodRec) (frames : List Frame) (tw : Throwable) : Throwable :=
  if !env.stackTraceInThrowable then tw
  else
    let tw := { tw with backtrace := none, stackTrace := none }
    let bt := BacktraceBuilder.mkNew
    if !has_last_Java_frame then
      if 1 ≤ env.max_depth then
        match method with
        | some m =>
            let bt := bt.push m 0
            { tw with depth := 1, backtrace := some bt.chunks }
        | none => tw
      else tw
    else
      let s := captureLoop env frames { bt := bt, total_count := 0, skipF := false, skipI := false }
      { tw with backtrace := some s.bt.chunks, depth := s.total_count }

/-- The data read off a resolved `Method*` during materialization: its
constant-pool version and stable original index. -/
structure ResolvedMethod where
  idnum : Nat
  version : Nat
deriving Repr, DecidableEq

/-- `version_matches` (javaClasses.cpp:1937-1940): the method exists and its
constant pool carries exactly the requested version. -/
def version_matches (method : Option ResolvedMethod) (version : Nat) : Bool :=
  match method with
  | none => false
  | some m => m.version == version

/-- The external object-model capabilities the materializer consumes (spec
section 6): class and loader display names, the interning service, module
metadata, method resolution at a class version, the per-class source-file
lookup/cache, and line-number decoding. -/
structure MaterializeEnv where
  class_name : Mirror → Nat
  class_loader_name : Mirror → Option Nat
  intern : Nat → Nat
  module_is_named : Mirror → Bool
  module_name : Mirror → Nat
  module_version : Mirror → Option Nat
  method_with_orig_idnum : Mirror → Nat → Nat → Option ResolvedMethod
  get_source_file_name : Mirror → Nat → Option Nat
  source_file_cache : Mirror → Option Nat
  get_line_number : ResolvedMethod → Nat → Int

/-- The fields of a `java.lang.StackTraceElement` that
`java_lang_StackTraceElement::fill_in` writes. -/
structure StackTraceElement where
  declaringClass : Option Nat
  declaringClassObject : Option Nat
  classLoaderName : Option Nat
  methodName : Option Nat
  moduleName : Option Nat
  moduleVersion : Option Nat
  fileName : Option Nat
  lineNumber : Int
deriving Repr, DecidableEq

/-- `java_lang_StackTraceElement::fill_in` (javaClasses.cpp:2599-2665):
populate the element from the holder mirror; if the method did not resolve
at the stored version (redefined class), the source file becomes null and
the line number the marker -1, with no other effect; otherwise source file
and line number are computed, refreshing the per-class source-file cache.
Returns the updated element together with the holder's new cache value. -/
def StackTraceElement_fill_in (env : MaterializeEnv) (e : StackTraceElement)
    (holder : Mirror) (method : Option ResolvedMethod) (version : Nat) (bci : Nat)
    (name : Nat) : StackTraceElement × Option Nat :=
  let e := { e with declaringClass := some (env.class_name holder),
                    declaringClassObject := some holder }
  let e :=
    match env.class_loader_name holder with
    | some ln => { e with classLoaderName := some ln }
    | none => e
  let e := { e with methodName := some (env.intern name) }
  let e :=
    if env.module_is_named holder then
      { e with moduleName := some (env.intern (env.module_name holder)),
               moduleVersion := (env.module_version holder).map env.intern }
    else e
  match method with
  | none => ({ e with fileName := none, lineNumber := -1 }, env.source_file_cache holder)
  | some m =>
    if m.version == version then
      let source := env.get_source_file_name holder version
      let cached := env.source_file_cache holder
      let source_file : Option Nat :=
        match source, cached with
        | some s, none => some (env.intern s)
        | some _, some v => some v
        | none, _ => none
      ({ e with fileName := source_file, lineNumber := env.get_line_number m bci },
       source_file)
    else ({ e with fileName := none, lineNumber := -1 }, env.source_file_cache holder)

/-- The exceptions `get_stack_trace_elements` can raise. -/
inductive VMError where
  | NullPointerException
  | IndexOutOfBoundsException
deriving Repr, DecidableEq

/-- Update the materializer environment after `fill_in` refreshed one class's
source-file cache (the store into `java_lang_Class::source_file`). -/
def cacheUpdate (env : MaterializeEnv) (holder : Mirror) (v : Option Nat) : MaterializeEnv :=
  { env with source_file_cache := fun h => if h = holder then v else env.source_file_cache h }

/-- The per-element loop of `get_stack_trace_elements`
(javaClasses.cpp:2532-2550): for each iterated backtrace element, take the
next destination slot, fail with `NullPointerException` if it is null,
otherwise resolve the method at the stored version and fill the element in.
An out-of-range destination index cannot occur when the destination length
equals the iterated depth; it is mapped to the bounds error. -/
def fillElementsLoop (env : MaterializeEnv) :
    List BacktraceElement → List (Option StackTraceElement) → Nat →
    Except VMError (List (Option StackTraceElement))
  | [], arr, _ => .ok arr
  | bte :: rest, arr, index =>
    match arr[index]? with
    | none => .error .IndexOutOfBoundsException
    | some none => .error .NullPointerException
    | some (some ste) =>
        let holder := bte.mirror
        let method := env.method_with_orig_idnum holder bte.method_id bte.version
        let (ste', newCache) :=
          StackTraceElement_fill_in env ste holder method bte.version bte.bci
            ((bte.name).getD 0)
        fillElementsLoop (cacheUpdate env holder newCache) rest
          (arr.set index (some ste')) (index + 1)

/-- `java_lang_Throwable::get_stack_trace_elements` (javaClasses.cpp:2516-2551):
a null throwable or null destination array raises `NullPointerException`; a
destination length different from the throwable's recorded depth raises
`IndexOutOfBoundsException`; otherwise each iterated frame is materialized
into the corresponding destination slot. -/
def get_stack_trace_elements (env : MaterializeEnv) (throwable : Option Throwable)
    (stack_trace_array : Option (List (Option StackTraceElement))) :
    Except VMError (List (Option StackTraceElement)) :=
  match throwable, stack_trace_array with
  | none, _ => .error .NullPointerException
  | some _, none => .error .NullPointerException
  | some t, some arr =>
    if arr.length ≠ t.depth then .error .IndexOutOfBoundsException
    else fillElementsLoop env (backtraceElems t.backtrace) arr 0

/-! The fallible layer: the same operations with TRAPS-style allocation
failure made explicit.  `ok` is an oracle deciding, per allocation event,
whether the heap allocation succeeds; a failed `CHECK` aborts the caller,
leaving a pending exception. -/

namespace BacktraceBuilder

/-- `expand(TRAPS)`: all five allocations happen before the store is linked,
so a failing expand leaves the builder unchanged and raises. -/
def expandE (ok : Nat → Bool) (b : BacktraceBuilder) : Except Unit BacktraceBuilder :=
  if ok b.allocCount then .ok b.expand else .error ()

/-- The fresh-backtrace constructor with fallible allocation. -/
def mkNewE (ok : Nat → Bool) : Except Unit BacktraceBuilder :=
  expandE ok { chunks := [], headIdx := none, index := 0,
               hasHiddenTopFrame := false, allocCount := 0 }

/-- `push(method, bci, TRAPS)`: only the embedded `expand(CHECK)` can fail. -/
def pushE (ok : Nat → Bool) (b : BacktraceBuilder) (m : MethodRec) (bci : Int) :
    Except Unit BacktraceBuilder :=
  let r := recOf m bci
  if trace_chunk_size ≤ b.index then
    match b.expandE ok with
    | .error e => .error e
    | .ok b' => .ok (b'.pushWrite r)
  else .ok (b.pushWrite r)

/-- `set_has_hidden_top_frame(TRAPS)`: boxing the marker Boolean can fail;
when the marker already exists nothing is allocated. -/
def set_has_hidden_top_frameE (ok : Nat → Bool) (b : BacktraceBuilder) :
    Except Unit BacktraceBuilder :=
  if b.hasHiddenTopFrame then .ok b
  else if ok b.allocCount then .ok b.set_has_hidden_top_frame else .error ()

end BacktraceBuilder

/-- The fresh-capture loop with fallible allocation; a failing `CHECK`
aborts the whole capture. -/
def captureLoopE (ok : Nat → Bool) (env : CaptureEnv) :
    List Frame → CapState → Except Unit CapState
  | [], s => .ok s
  | f :: fs, s =>
    if env.max_depth ≠ 0 ∧ env.max_depth = s.total_count then .ok s
    else
      match classifyFrame env f.method s.skipF s.skipI with
      | (.elideFiller, sF, sI) => captureLoopE ok env fs { s with skipF := sF, skipI := sI }
      | (.elideInit, sF, sI) => captureLoopE ok env fs { s with skipF := sF, skipI := sI }
      | (.elideHidden, sF, sI) =>
          if s.total_count = 0 then
            match s.bt.set_has_hidden_top_frameE ok with
            | .error e => .error e
            | .ok bt =>
                captureLoopE ok env fs
                  { bt := bt, total_count := s.total_count, skipF := sF, skipI := sI }
          else captureLoopE ok env fs { s with skipF := sF, skipI := sI }
      | (.record, sF, sI) =>
          match s.bt.pushE ok f.method f.bci with
          | .error e => .error e
          | .ok bt =>
              captureLoopE ok env fs
                { bt := bt, total_count := s.total_count + 1, skipF := sF, skipI := sI }

/-- `fill_in_stack_trace(throwable, method, TRAPS)` with explicit allocation
failure: returns the throwable state together with whether a pending
exception was raised.  The backtrace is cleared up front precisely so that a
mid-capture failure leaves a null backtrace, never a torn one
(javaClasses.cpp:2310-2315). -/
def fill_in_stack_trace_E (ok : Nat → Bool) (env : CaptureEnv)
    (has_last_Java_frame : Bool) (method : Option MethodRec) (frames : List Frame)
    (tw : Throwable) : Throwable × Bool :=
  if !env.stackTraceInThrowable then (tw, false)
  else
    let tw := { tw with backtrace := none, stackTrace := none }
    match BacktraceBuilder.mkNewE ok with
    | .error _ => (tw, true)
    | .ok bt =>
      if !has_last_Java_frame then
        if 1 ≤ env.max_depth then
          match method with
          | some m =>
              match bt.pushE ok m 0 with
              | .error _ => (tw, true)
              | .ok bt' => ({ tw with depth := 1, backtrace := some bt'.chunks }, false)
          | none => (tw, false)
        else (tw, false)
      else
        match captureLoopE ok env frames
            { bt := bt, total_count := 0, skipF := false, skipI := false } with
        | .error _ => (tw, true)
        | .ok s => ({ tw with backtrace := some s.bt.chunks, depth := s.total_count }, false)

/-- The no-TRAPS wrapper `fill_in_stack_trace(throwable, method)`
(javaClasses.cpp:2449-2466): guarded by `StackTraceInThrowable` and
`Universe::should_fill_in_stack_trace`, it preserves any pre-existing
pending exception (`PRESERVE_EXCEPTION_MARK`) and clears whatever the
capture raised (`CLEAR_PENDING_EXCEPTION`), so that a capture failure is
never reported to the caller.  `pending` is the caller's pending-exception
state, returned unchanged. -/
def fill_in_stack_trace_suppress (ok : Nat → Bool) (env : CaptureEnv)
    (should_fill : Bool) (has_last_Java_frame : Bool) (method : Option MethodRec)
    (frames : List Frame) (tw : Throwable) (pending : Bool) : Throwable × Bool :=
  if !env.stackTraceInThrowable then (tw, pending)
  else if !should_fill then (tw, pending)
  else
    let r := fill_in_stack_trace_E ok env has_last_Java_frame method frames tw
    (r.1, pending)

/-! The store invariant: a built backtrace is a chain of chunks, each fully
written except the head, and the chain links run oldest chunk to newest. -/

/-- The expected `trace_next_offset` link of chunk `i` in a chain of `len`
chunks: the following chunk, or null for the newest chunk. -/
def chainNext (len i : Nat) : Option Nat :=
  if i + 1 = len then none else some (i + 1)

/-- Chunk `ch` holds exactly the records `seg` in its first `seg.length`
columns (zero/null padding after), and its next link is `nxt`.  The hidden
slot is unconstrained. -/
structure ChunkInv (ch : ChunkData) (seg : List Rec) (nxt : Option Nat) : Prop where
  hlen : seg.length ≤ trace_chunk_size
  hm : ch.methods = seg.map Rec.idnum ++ List.replicate (trace_chunk_size - seg.length) 0
  hb : ch.bcis = seg.map Rec.merged ++ List.replicate (trace_chunk_size - seg.length) 0
  hmi : ch.mirrors =
    seg.map (fun r => some r.mirror) ++ List.replicate (trace_chunk_size - seg.length) none
  hn : ch.names =
    seg.map (fun r => some r.name) ++ List.replicate (trace_chunk_size - seg.length) none
  hnx : ch.nextIdx = nxt

/-- The chunk list realizes the segment list `segs`: chunk `i` holds segment
`i` and links to chunk `i + 1`; every chunk but the last is full. -/
structure HeapInv (heap : List ChunkData) (segs : List (List Rec)) : Prop where
  hlen : heap.length = segs.length
  hfull : ∀ i seg, segs[i]? = some seg → i + 1 < segs.length → seg.length = trace_chunk_size
  hch : ∀ i ch seg, heap[i]? = some ch → segs[i]? = some seg →
    ChunkInv ch seg (chainNext segs.length i)

/-- A live builder over such a store: the head is the newest chunk and the
cursor is the length of its written prefix. -/
structure BuilderInv (b : BacktraceBuilder) (segs : List (List Rec)) : Prop where
  hp : HeapInv b.chunks segs
  hpos : 0 < segs.length
  hhead : b.headIdx = some (segs.length - 1)
  hidx : (segs[segs.length - 1]?).map List.length = some b.index

/-- How one push extends the segment list: into a new chunk when the last
segment is full, else onto the last segment. -/
def pushSegs (segs : List (List Rec)) (r : Rec) : List (List Rec) :=
  match segs[segs.length - 1]? with
  | none => [[r]]
  | some l =>
    if trace_chunk_size ≤ l.length then segs ++ [[r]]
    else updateAt segs (segs.length - 1) (fun s => s ++ [r])

/-- Whether a `get_stack_trace_elements` call signalled an error. -/
def resultIsError : Except VMError (List (Option StackTraceElement)) → Bool
  | .error _ => true
  | .ok _ => false

/-! Concrete sample data used to evaluate the theorems on closed inputs. -/

/-- A plain visible method. -/
def sampleMethod : MethodRec :=
  { orig_method_idnum := 7, version := 3, name := 11, holder := 5, mirror := 9,
    is_hidden := false }

/-- A method marked hidden. -/
def sampleHiddenMethod : MethodRec :=
  { orig_method_idnum := 8, version := 3, name := 12, holder := 5, mirror := 10,
    is_hidden := true }

/-- A capture configuration with tracing on, depth limit 10 and hidden-frame
suppression on. -/
def sampleEnv : CaptureEnv :=
  { stackTraceInThrowable := true, max_depth := 10, show_hidden_frames := false,
    fillInStackTrace_name := 1, object_init_name := 2,
    throwable_is_a := fun _ => false }

/-- The same configuration with the unlimited depth setting 0. -/
def sampleEnvUnlimited : CaptureEnv :=
  { stackTraceInThrowable := true, max_depth := 0, show_hidden_frames := false,
    fillInStackTrace_name := 1, object_init_name := 2,
    throwable_is_a := fun _ => false }

/-- A throwable whose depth field still holds a stale value from an earlier
capture. -/
def sampleThrowable : Throwable :=
  { backtrace := none, stackTrace := none, depth := 5 }

/-- A blank stack trace element. -/
def sampleSTE : StackTraceElement :=
  { declaringClass := none, declaringClassObject := none, classLoaderName := none,
    methodName := none, moduleName := none, moduleVersion := none,
    fileName := none, lineNumber := 0 }

/-- A materialization environment where every capability is a constant. -/
def sampleMatEnv : MaterializeEnv :=
  { class_name := fun _ => 21, class_loader_name := fun _ => none,
    intern := fun s => s, module_is_named := fun _ => false,
    module_name := fun _ => 22, module_version := fun _ => none,
    method_with_orig_idnum := fun _ _ _ => none,
    get_source_file_name := fun _ _ => none, source_file_cache := fun _ => none,
    get_line_number := fun _ _ => 17 }

/-- Repeated pushes of the same frame, used to reach a full chunk. -/
def pushNTimes : Nat → BacktraceBuilder → BacktraceBuilder
  | 0, b => b
  | n + 1, b => pushNTimes n (b.push sampleMethod 0)

/-- A builder whose head chunk is exactly full (cursor at capacity). -/
def fullBuilder : BacktraceBuilder := pushNTimes trace_chunk_size BacktraceBuilder.mkNew

/-! Helper lemmas about `updateAt`, padded columns and segment lists. -/

theorem updateAt_length {α : Type} (l : List α) (i : Nat) (f : α → α) :
    (updateAt l i f).length = l.length := by
  induction l generalizing i with
  | nil => rfl
  | cons a l ih =>
    cases i with
    | zero => simp [updateAt]
    | succ n => simp [updateAt, ih]

theorem getElem?_updateAt_eq {α : Type} (l : List α) (i : Nat) (f : α → α) :
    (updateAt l i f)[i]? = (l[i]?).map f := by
  induction l generalizing i with
  | nil => simp [updateAt]
  | cons a l ih =>
    cases i with
    | zero => simp [updateAt]
    | succ n => simpa [updateAt] using ih n

theorem getElem?_updateAt_ne {α : Type} (l : List α) (i j : Nat) (f : α → α)
    (h : i ≠ j) : (updateAt l i f)[j]? = l[j]? := by
  induction l generalizing i j with
  | nil => simp [updateAt]
  | cons a l ih =>
    cases i with
    | zero =>
      cases j with
      | zero => exact absurd rfl h
      | succ m => simp [updateAt]
    | succ n =>
      cases j with
      | zero => simp [updateAt]
      | succ m =>
        simp only [updateAt, List.getElem?_cons_succ]
        exact ih n m (fun hnm => h (by omega))

theorem getElem?_replicate_eval {α : Type} (d : α) :
    ∀ (n i : Nat), (List.replicate n d)[i]? = if i < n then some d else none := by
  intro n
  induction n with
  | zero => intro i; simp
  | succ n ih =>
    intro i
    cases i with
    | zero => simp [List.replicate_succ]
    | succ m => simpa [List.replicate_succ] using ih m

/-- Lookup into a written-prefix-plus-padding column. -/
theorem getElem?_pad {α β : Type} (seg : List α) (f : α → β) (d : β) (pad : Nat) :
    ∀ i : Nat,
      (seg.map f ++ List.replicate pad d)[i]? =
        if h : i < seg.length then some (f (seg.get ⟨i, h⟩))
        else if i < seg.length + pad then some d else none := by
  induction seg with
  | nil =>
    intro i
    simpa using getElem?_replicate_eval d pad i
  | cons a seg ih =>
    intro i
    cases i with
    | zero => simp
    | succ m =>
      have := ih m
      simp only [List.map_cons, List.cons_append, List.getElem?_cons_succ, List.length_cons]
      rw [this]
      by_cases hm : m < seg.length
      · rw [dif_pos hm, dif_pos (by omega)]
        rfl
      · rw [dif_neg hm, dif_neg (by omega)]
        by_cases hp : m < seg.length + pad
        · rw [if_pos hp, if_pos (by omega)]
        · rw [if_neg hp, if_neg (by omega)]

/-- Writing at the cursor extends the written prefix by one. -/
theorem set_pad_at_length {α β : Type} (seg : List α) (f : α → β) (d v : β) :
    ∀ (pad : Nat), 0 < pad →
      (seg.map f ++ List.replicate pad d).set seg.length v =
        (seg.map f ++ [v]) ++ List.replicate (pad - 1) d := by
  induction seg with
  | nil =>
    intro pad hp
    cases pad with
    | zero => omega
    | succ n => simp [List.replicate_succ]
  | cons a seg ih =>
    intro pad hp
    simp only [List.map_cons, List.cons_append, List.length_cons, List.set_cons_succ]
    rw [ih pad hp]


theorem flatten_updateAt_last {α : Type} (r : α) :
    ∀ (segs : List (List α)) (l : List α), segs[segs.length - 1]? = some l →
      (updateAt segs (segs.length - 1) (fun s => s ++ [r])).flatten = segs.flatten ++ [r] := by
  intro segs
  induction segs with
  | nil => intro l h; simp at h
  | cons s rest ih =>
    intro l h
    cases rest with
    | nil => simp [updateAt]
    | cons t ts =>
      have hlen : (s :: t :: ts).length - 1 = (t :: ts).length := by simp
      rw [hlen] at h ⊢
      have h' : (t :: ts)[(t :: ts).length - 1]? = some l := by
        simpa using h
      have := ih l h'
      simp only [List.length_cons] at this ⊢
      simp only [updateAt, List.flatten_cons]
      rw [show ts.length + 1 - 1 = ts.length from rfl] at this
      rw [this]
      simp [List.flatten_cons, List.append_assoc]

theorem flatten_pushSegs (segs : List (List Rec)) (r : Rec) :
    (pushSegs segs r).flatten = segs.flatten ++ [r] := by
  unfold pushSegs
  cases hm : segs[segs.length - 1]? with
  | none =>
    have : segs = [] := by
      cases segs with
      | nil => rfl
      | cons s rest =>
        exfalso
        rw [List.getElem?_eq_getElem (by simp)] at hm
        exact Option.noConfusion hm
    subst this
    simp
  | some l =>
    by_cases hc : trace_chunk_size ≤ l.length
    · simp [hc]
    · simp only [if_neg hc]
      exact flatten_updateAt_last r segs l hm

theorem push_BuilderInv (b : BacktraceBuilder) (segs : List (List Rec))
    (m : MethodRec) (bci : Int) (hb : BuilderInv b segs) :
    BuilderInv (b.push m bci) (pushSegs segs (recOf m bci)) := by
  obtain ⟨hp, hpos, hhead, hidx⟩ := hb
  set r := recOf m bci with hr
  set n := segs.length with hn
  obtain ⟨l, hl, hll⟩ : ∃ l, segs[n - 1]? = some l ∧ l.length = b.index := by
    cases hsl : segs[n - 1]? with
    | none => rw [hsl] at hidx; exact Option.noConfusion hidx
    | some l =>
      rw [hsl] at hidx
      exact ⟨l, rfl, Option.some.injEq _ _ ▸ by simpa using hidx⟩
  have hchunklen : b.chunks.length = n := hp.hlen
  have hlcap : l.length ≤ trace_chunk_size := by
    obtain ⟨ch, hch⟩ : ∃ ch, b.chunks[n - 1]? = some ch := by
      refine ⟨b.chunks[n - 1], List.getElem?_eq_getElem ?_⟩
      omega
    exact (hp.hch (n - 1) ch l hch hl).hlen
  by_cases hcap : trace_chunk_size ≤ b.index
  · -- the head chunk is full: expand, then write into the fresh chunk
    have hlfull : l.length = trace_chunk_size := by omega
    have hps : pushSegs segs r = segs ++ [[r]] := by
      unfold pushSegs
      rw [← hn, hl]
      simp [show trace_chunk_size ≤ l.length by omega]
    have hpush : b.push m bci = (b.expand).pushWrite r := by
      unfold BacktraceBuilder.push
      rw [← hr, if_pos hcap]
    rw [hps, hpush]
    have hnewIdx : b.expand.headIdx = some n := by
      simp [BacktraceBuilder.expand, hchunklen]
    have hechunks : b.expand.chunks =
        updateAt (b.chunks ++ [ChunkData.fresh]) (n - 1)
          (fun ch => { ch with nextIdx := some n }) := by
      simp [BacktraceBuilder.expand, hhead, hchunklen]
    have heidx : b.expand.index = 0 := rfl
    constructor
    · -- HeapInv of the expanded-and-written heap
      constructor
      · simp [BacktraceBuilder.pushWrite, hnewIdx, hechunks, updateAt_length, hchunklen]
      · intro i seg hseg hilt
        have hilen : i < n + 1 := by
          simp at hilt; omega
        rcases Nat.lt_or_ge i n with hin | hin
        · have : (segs ++ [[r]])[i]? = segs[i]? := by
            rw [List.getElem?_append, if_pos (by omega)]
          rw [this] at hseg
          rcases Nat.lt_or_ge (i + 1) n with hi1 | hi1
          · exact hp.hfull i seg hseg hi1
          · have hieq : i = n - 1 := by omega
            subst hieq
            rw [hl] at hseg
            have : seg = l := Option.some_inj.mp hseg.symm
            subst this
            exact hlfull
        · exfalso
          rw [show (segs ++ [[r]]).length = n + 1 by simp [← hn]] at hilt
          omega
      · intro i ch seg hch hseg
        have hlen' : (segs ++ [[r]]).length = n + 1 := by simp [← hn]
        have hi : i < n + 1 := by
          by_contra hcon
          rw [List.getElem?_eq_none (by omega)] at hseg
          exact Option.noConfusion hseg
        have hw : (b.expand.pushWrite r).chunks =
            updateAt b.expand.chunks n (fun c => c.write 0 r) := by
          simp [BacktraceBuilder.pushWrite, hnewIdx, heidx]
        rcases Nat.lt_or_ge i (n - 1) with hlt | hge
        · -- untouched old chunk
          obtain ⟨chi, hchi⟩ : ∃ chi, b.chunks[i]? = some chi := by
            have hilt : i < b.chunks.length := by omega
            exact ⟨b.chunks[i], List.getElem?_eq_getElem hilt⟩
          have hchv : ch = chi := by
            rw [hw, getElem?_updateAt_ne _ _ _ _ (by omega), hechunks,
              getElem?_updateAt_ne _ _ _ _ (by omega), List.getElem?_append,
              if_pos (by omega), hchi] at hch
            exact (Option.some_inj.mp hch).symm
          have hsegv : segs[i]? = some seg := by
            rw [List.getElem?_append, if_pos (by omega)] at hseg
            exact hseg
          have hold := hp.hch i chi seg hchi hsegv
          rw [← hchv] at hold
          have hcn : chainNext (segs ++ [[r]]).length i = chainNext segs.length i := by
            unfold chainNext
            rw [hlen', if_neg (by omega), if_neg (by omega)]
          rw [hcn]
          have hcn' : chainNext segs.length i = some (i + 1) := by
            unfold chainNext; rw [if_neg (by omega)]
          rw [hcn'] at hold ⊢
          exact hold
        · rcases Nat.lt_or_ge i n with hin | hin
          · -- the old head: its next link now points at the fresh chunk
            have hieq : i = n - 1 := by omega
            subst hieq
            obtain ⟨ch0, hch0⟩ : ∃ ch0, b.chunks[n - 1]? = some ch0 := by
              refine ⟨b.chunks[n - 1], List.getElem?_eq_getElem ?_⟩
              omega
            have hchv : ch = { ch0 with nextIdx := some n } := by
              rw [hw, getElem?_updateAt_ne _ _ _ _ (by omega), hechunks,
                getElem?_updateAt_eq, List.getElem?_append, if_pos (by omega), hch0] at hch
              simpa using hch.symm
            have hsegv : segs[n - 1]? = some seg := by
              rw [List.getElem?_append, if_pos (by omega)] at hseg
              exact hseg
            rw [hl] at hsegv
            have hseg_eq : seg = l := Option.some_inj.mp hsegv.symm
            have hold := hp.hch (n - 1) ch0 l hch0 hl
            have hcn : chainNext (segs ++ [[r]]).length (n - 1) = some n := by
              unfold chainNext
              rw [hlen', if_neg (by omega)]
              congr 1
              omega
            rw [hcn, hchv, hseg_eq]
            exact ⟨hold.hlen, hold.hm, hold.hb, hold.hmi, hold.hn, rfl⟩
          · -- the fresh chunk, holding exactly the new record
            have hieq : i = n := by omega
            subst hieq
            have hchv : ch = ChunkData.fresh.write 0 r := by
              rw [hw, getElem?_updateAt_eq, hechunks,
                getElem?_updateAt_ne _ _ _ _ (by omega), List.getElem?_append,
                if_neg (by omega), hchunklen] at hch
              simpa using hch.symm
            have hsegv : seg = [r] := by
              rw [List.getElem?_append, if_neg (by omega), ← hn] at hseg
              simpa using hseg.symm
            subst hsegv
            have hcn : chainNext (segs ++ [[r]]).length n = none := by
              unfold chainNext
              rw [hlen', if_pos rfl]
            rw [hcn, hchv]
            have hpad : ∀ {α : Type} (d v : α),
                (List.replicate trace_chunk_size d).set 0 v =
                  [v] ++ List.replicate (trace_chunk_size - 1) d := by
              intro α d v
              have := set_pad_at_length ([] : List Rec) (fun _ => d) d v trace_chunk_size
                (by norm_num [trace_chunk_size])
              simpa using this
            constructor
            · norm_num [trace_chunk_size]
            · simp [ChunkData.write, ChunkData.fresh, hpad]
            · simp [ChunkData.write, ChunkData.fresh, hpad]
            · simp [ChunkData.write, ChunkData.fresh, hpad]
            · simp [ChunkData.write, ChunkData.fresh, hpad]
            · simp [ChunkData.write, ChunkData.fresh]
    · simp [← hn]
    · simp [BacktraceBuilder.pushWrite, hnewIdx, heidx, ← hn]
    · have : (segs ++ [[r]])[(segs ++ [[r]]).length - 1]? = some [r] := by
        simp
      rw [this]
      simp [BacktraceBuilder.pushWrite, hnewIdx, heidx]
  · -- room in the head chunk: write at the cursor
    have hps : pushSegs segs r = updateAt segs (n - 1) (fun s => s ++ [r]) := by
      unfold pushSegs
      rw [← hn, hl]
      simp [show ¬trace_chunk_size ≤ l.length by omega]
    have hpush : b.push m bci = b.pushWrite r := by
      unfold BacktraceBuilder.push
      rw [← hr, if_neg hcap]
    rw [hps, hpush]
    have hw : (b.pushWrite r).chunks =
        updateAt b.chunks (n - 1) (fun c => c.write b.index r) := by
      simp [BacktraceBuilder.pushWrite, hhead, ← hn]
    have hwidx : (b.pushWrite r).index = b.index + 1 := by
      simp [BacktraceBuilder.pushWrite, hhead]
    have hwhead : (b.pushWrite r).headIdx = b.headIdx := by
      simp [BacktraceBuilder.pushWrite, hhead]
    have hulen : (updateAt segs (n - 1) fun s => s ++ [r]).length = n := by
      rw [updateAt_length, hn]
    constructor
    · constructor
      · rw [hw, updateAt_length, hulen, hchunklen]
      · intro i seg hseg hilt
        rw [hulen] at hilt
        have hine : i ≠ n - 1 := by
          intro hcon
          subst hcon
          omega
        rw [getElem?_updateAt_ne _ _ _ _ (fun hx => hine hx.symm)] at hseg
        exact hp.hfull i seg hseg (by omega)
      · intro i ch seg hch hseg
        have hi : i < n := by
          by_contra hcon
          rw [List.getElem?_eq_none (by rw [hulen]; omega)] at hseg
          exact Option.noConfusion hseg
        have hcn : chainNext (updateAt segs (n - 1) fun s => s ++ [r]).length i =
            chainNext segs.length i := by
          rw [hulen, hn]
        rw [hcn]
        rcases Nat.lt_or_ge i (n - 1) with hlt | hge
        · rw [hw, getElem?_updateAt_ne _ _ _ _ (by omega)] at hch
          rw [getElem?_updateAt_ne _ _ _ _ (by omega)] at hseg
          exact hp.hch i ch seg hch hseg
        · have hieq : i = n - 1 := by omega
          subst hieq
          obtain ⟨ch0, hch0⟩ : ∃ ch0, b.chunks[n - 1]? = some ch0 := by
            refine ⟨b.chunks[n - 1], List.getElem?_eq_getElem ?_⟩
            omega
          rw [hw, getElem?_updateAt_eq, hch0] at hch
          rw [getElem?_updateAt_eq, hl] at hseg
          have hchv : ch = ch0.write b.index r := by simpa using hch.symm
          have hsegv : seg = l ++ [r] := by simpa using hseg.symm
          subst hchv hsegv
          have hold := hp.hch (n - 1) ch0 l hch0 hl
          have hpadpos : 0 < trace_chunk_size - l.length := by omega
          have harith : trace_chunk_size - l.length - 1 =
              trace_chunk_size - (l ++ [r]).length := by
            simp
            omega
          constructor
          · simp; omega
          · show ch0.methods.set b.index r.idnum = _
            rw [hold.hm, ← hll,
              set_pad_at_length l Rec.idnum 0 r.idnum (trace_chunk_size - l.length)
                (by omega),
              harith, List.map_append]
            simp
          · show ch0.bcis.set b.index r.merged = _
            rw [hold.hb, ← hll,
              set_pad_at_length l Rec.merged 0 r.merged (trace_chunk_size - l.length)
                (by omega),
              harith, List.map_append]
            simp
          · show ch0.mirrors.set b.index (some r.mirror) = _
            rw [hold.hmi, ← hll,
              set_pad_at_length l (fun x => some x.mirror) none (some r.mirror)
                (trace_chunk_size - l.length) (by omega),
              harith, List.map_append]
            simp
          · show ch0.names.set b.index (some r.name) = _
            rw [hold.hn, ← hll,
              set_pad_at_length l (fun x => some x.name) none (some r.name)
                (trace_chunk_size - l.length) (by omega),
              harith, List.map_append]
            simp
          · show ch0.nextIdx = _
            exact hold.hnx
    · rw [hulen]; omega
    · rw [hwhead, hhead, hulen, hn]
    · rw [hulen, getElem?_updateAt_eq, hl, hwidx]
      simp [hll]

theorem BuilderInv_mkNew : BuilderInv BacktraceBuilder.mkNew [[]] := by
  have hmk : BacktraceBuilder.mkNew =
      { chunks := [ChunkData.fresh], headIdx := some 0, index := 0,
        hasHiddenTopFrame := false, allocCount := 1 } := rfl
  constructor
  · constructor
    · simp [hmk]
    · intro i seg hseg hlt
      simp at hlt
    · intro i ch seg hch hseg
      have hi : i = 0 := by
        by_contra hcon
        rw [List.getElem?_eq_none (l := [[]]) (by simp; omega)] at hseg
        exact Option.noConfusion hseg
      subst hi
      rw [hmk] at hch
      have hchv : ch = ChunkData.fresh := by simpa using hch.symm
      have hsegv : seg = [] := by simpa using hseg.symm
      subst hchv
      subst hsegv
      constructor
      · simp [trace_chunk_size]
      · simp [ChunkData.fresh]
      · simp [ChunkData.fresh]
      · simp [ChunkData.fresh]
      · simp [ChunkData.fresh]
      · simp [ChunkData.fresh, chainNext]
  · simp
  · simp [hmk]
  · simp [hmk]

theorem set_hidden_BuilderInv (b : BacktraceBuilder) (segs : List (List Rec))
    (hb : BuilderInv b segs) : BuilderInv b.set_has_hidden_top_frame segs := by
  obtain ⟨hp, hpos, hhead, hidx⟩ := hb
  unfold BacktraceBuilder.set_has_hidden_top_frame
  by_cases hflag : b.hasHiddenTopFrame
  · rw [if_pos hflag]
    exact ⟨hp, hpos, hhead, hidx⟩
  · rw [if_neg hflag, hhead]
    show BuilderInv
      { chunks := updateAt b.chunks (segs.length - 1)
          (fun ch => { ch with hidden := some true })
        headIdx := some (segs.length - 1)
        index := b.index
        hasHiddenTopFrame := true
        allocCount := b.allocCount + 1 } segs
    constructor
    · constructor
      · simpa [updateAt_length] using hp.hlen
      · exact hp.hfull
      · intro i ch seg hch hseg
        have hch' : (updateAt b.chunks (segs.length - 1)
            (fun ch => { ch with hidden := some true }))[i]? = some ch := hch
        by_cases hie : segs.length - 1 = i
        · subst hie
          obtain ⟨ch0, hch0⟩ : ∃ ch0, b.chunks[segs.length - 1]? = some ch0 := by
            have hlt : segs.length - 1 < b.chunks.length := by rw [hp.hlen]; omega
            exact ⟨b.chunks[segs.length - 1], List.getElem?_eq_getElem hlt⟩
          rw [getElem?_updateAt_eq, hch0] at hch'
          have hchv : ch = { ch0 with hidden := some true } := by simpa using hch'.symm
          subst hchv
          have hold := hp.hch (segs.length - 1) ch0 seg hch0 hseg
          exact ⟨hold.hlen, hold.hm, hold.hb, hold.hmi, hold.hn, hold.hnx⟩
        · rw [getElem?_updateAt_ne _ _ _ _ hie] at hch'
          exact hp.hch i ch seg hch' hseg
    · exact hpos
    · rfl
    · exact hidx

/-! Iterating a well-formed store yields exactly the written records. -/

theorem iterElems_none (heap : List ChunkData) (fuel idx : Nat) :
    iterElems heap (fuel + 1) none idx = [] := rfl

theorem iterElems_yield (heap : List ChunkData) (fuel c idx : Nat) (mir : Mirror)
    (h2 : ((chunkAt heap c).mirrors[idx]?).getD none = some mir) :
    iterElems heap (fuel + 1) (some c) idx =
      { mirror := mir
        method_id := ((chunkAt heap c).methods[idx]?).getD 0
        version := version_at (((chunkAt heap c).bcis[idx]?).getD 0)
        bci := bci_at (((chunkAt heap c).bcis[idx]?).getD 0)
        name := ((chunkAt heap c).names[idx]?).getD none } ::
      (if trace_chunk_size ≤ idx + 1
       then iterElems heap fuel (chunkAt heap c).nextIdx 0
       else iterElems heap fuel (some c) (idx + 1)) := by
  conv_lhs => rw [iterElems]
  rw [h2]

theorem iterElems_stop (heap : List ChunkData) (fuel c idx : Nat)
    (h2 : ((chunkAt heap c).mirrors[idx]?).getD none = none) :
    iterElems heap (fuel + 1) (some c) idx = [] := by
  conv_lhs => rw [iterElems]
  rw [h2]

theorem chain_seg_le (heap : List ChunkData) (segs : List (List Rec))
    (hp : HeapInv heap segs) : ∀ s ∈ segs, s.length ≤ trace_chunk_size := by
  intro s hs
  obtain ⟨i, hi, hgi⟩ := List.getElem_of_mem hs
  obtain ⟨ch, hch⟩ : ∃ ch, heap[i]? = some ch := by
    have hlt : i < heap.length := by rw [hp.hlen]; omega
    exact ⟨heap[i], List.getElem?_eq_getElem hlt⟩
  have hseg : segs[i]? = some s := by
    rw [List.getElem?_eq_getElem hi, hgi]
  exact (hp.hch i ch s hch hseg).hlen

theorem sum_map_length_le (segs : List (List Rec))
    (hcap : ∀ s ∈ segs, s.length ≤ trace_chunk_size) :
    (segs.map List.length).sum ≤ segs.length * trace_chunk_size := by
  induction segs with
  | nil => simp
  | cons s rest ih =>
    simp only [List.map_cons, List.sum_cons, List.length_cons]
    have h1 := hcap s (by simp)
    have h2 := ih (fun x hx => hcap x (by simp [hx]))
    have h3 : (rest.length + 1) * trace_chunk_size =
        rest.length * trace_chunk_size + trace_chunk_size := by ring
    omega

/-- Iteration from a position inside the chain yields the records written
from that position on. -/
theorem iter_chain (heap : List ChunkData) (segs : List (List Rec))
    (hp : HeapInv heap segs) :
    ∀ (fuel c idx : Nat) (seg : List Rec),
      segs[c]? = some seg → idx ≤ seg.length → idx < trace_chunk_size →
      (seg.length - idx) + ((segs.drop (c + 1)).map List.length).sum < fuel →
      iterElems heap fuel (some c) idx =
        ((seg.drop idx) ++ (segs.drop (c + 1)).flatten).map elemOf := by
  intro fuel
  induction fuel with
  | zero =>
    intro c idx seg _ _ _ hf
    omega
  | succ fuel ih =>
    intro c idx seg hseg hile hicap hf
    have hc : c < segs.length := (List.getElem?_eq_some.mp hseg).1
    obtain ⟨ch, hch⟩ : ∃ ch, heap[c]? = some ch := by
      have hlt : c < heap.length := by rw [hp.hlen]; omega
      exact ⟨heap[c], List.getElem?_eq_getElem hlt⟩
    have hchAt : chunkAt heap c = ch := by simp [chunkAt, hch]
    have hcinv := hp.hch c ch seg hch hseg
    rcases Nat.lt_or_ge idx seg.length with hidx | hidx
    · -- a written slot: yield its record
      have hmir : ((chunkAt heap c).mirrors[idx]?).getD none =
          some (seg.get ⟨idx, hidx⟩).mirror := by
        rw [hchAt, hcinv.hmi, getElem?_pad, dif_pos hidx]
        simp
      have hmeth : ((chunkAt heap c).methods[idx]?).getD 0 = (seg.get ⟨idx, hidx⟩).idnum := by
        rw [hchAt, hcinv.hm, getElem?_pad, dif_pos hidx]
        simp
      have hbci : ((chunkAt heap c).bcis[idx]?).getD 0 = (seg.get ⟨idx, hidx⟩).merged := by
        rw [hchAt, hcinv.hb, getElem?_pad, dif_pos hidx]
        simp
      have hname : ((chunkAt heap c).names[idx]?).getD none =
          some (seg.get ⟨idx, hidx⟩).name := by
        rw [hchAt, hcinv.hn, getElem?_pad, dif_pos hidx]
        simp
      rw [iterElems_yield heap fuel c idx _ hmir, hmeth, hbci, hname]
      have hdropseg : seg.drop idx = seg.get ⟨idx, hidx⟩ :: seg.drop (idx + 1) :=
        List.drop_eq_getElem_cons hidx
      rw [hdropseg]
      simp only [List.map_cons, List.cons_append]
      congr 1
      by_cases hend : trace_chunk_size ≤ idx + 1
      · -- crossing a chunk boundary
        rw [if_pos hend]
        have hfull : seg.length = trace_chunk_size := by
          have := hcinv.hlen
          omega
        have hdrop1 : seg.drop (idx + 1) = [] := by
          apply List.drop_eq_nil_of_le
          omega
        rw [hdrop1]
        rcases Nat.lt_or_ge (c + 1) segs.length with hnext | hnext
        · -- there is a following chunk
          have hnx : (chunkAt heap c).nextIdx = some (c + 1) := by
            rw [hchAt, hcinv.hnx]
            unfold chainNext
            rw [if_neg (by omega)]
          obtain ⟨seg', hseg'⟩ : ∃ seg', segs[c + 1]? = some seg' :=
            ⟨segs[c + 1], List.getElem?_eq_getElem hnext⟩
          have hdropsegs : segs.drop (c + 1) = seg' :: segs.drop (c + 2) := by
            have hstep := List.drop_eq_getElem_cons (l := segs) hnext
            rw [List.getElem?_eq_getElem hnext] at hseg'
            rw [hstep, Option.some_inj.mp hseg']
          rw [hnx, hdropsegs]
          rw [ih (c + 1) 0 seg' hseg' (by omega)
            (by rw [show trace_chunk_size = 32 from rfl]; omega)
            (by
              rw [hdropsegs] at hf
              simp only [List.map_cons, List.sum_cons] at hf
              have hdd : segs.drop (c + 1 + 1) = segs.drop (c + 2) := by
                rw [show c + 1 + 1 = c + 2 by omega]
              rw [hdd]
              omega)]
          simp [List.flatten_cons]
        · -- the last chunk ends exactly at capacity
          have hnx : (chunkAt heap c).nextIdx = none := by
            rw [hchAt, hcinv.hnx]
            unfold chainNext
            rw [if_pos (by omega)]
          have hdropsegs : segs.drop (c + 1) = [] := List.drop_eq_nil_of_le hnext
          rw [hnx, hdropsegs]
          cases fuel with
          | zero => simp [iterElems]
          | succ fuel' => rw [iterElems_none]; simp
      · -- continue inside the chunk
        rw [if_neg hend]
        rw [ih c (idx + 1) seg hseg (by omega) (by omega) (by omega)]
    · -- the first unwritten slot of the last chunk: iteration stops
      have hieq : idx = seg.length := by omega
      have hlast : segs.length ≤ c + 1 := by
        by_contra hcon
        have := hp.hfull c seg hseg (by omega)
        omega
      have hmir : ((chunkAt heap c).mirrors[idx]?).getD none = none := by
        rw [hchAt, hcinv.hmi, getElem?_pad, dif_neg (by omega)]
        rw [if_pos (by
          have := hcinv.hlen
          omega)]
        simp
      rw [iterElems_stop heap fuel c idx hmir]
      have h1 : seg.drop idx = [] := List.drop_eq_nil_of_le (by omega)
      have h2 : segs.drop (c + 1) = [] := List.drop_eq_nil_of_le hlast
      rw [h1, h2]
      simp

/-- Iterating a completed well-formed store from its root chunk yields
exactly the pushed records, in order. -/
theorem backtraceElems_of_BuilderInv (b : BacktraceBuilder) (segs : List (List Rec))
    (hb : BuilderInv b segs) :
    backtraceElems (some b.chunks) = segs.flatten.map elemOf := by
  obtain ⟨hp, hpos, hhead, hidx⟩ := hb
  obtain ⟨seg0, rest, hsegs⟩ : ∃ seg0 rest, segs = seg0 :: rest := by
    cases segs with
    | nil => simp at hpos
    | cons s r => exact ⟨s, r, rfl⟩
  subst hsegs
  have hseg0 : (seg0 :: rest)[0]? = some seg0 := by simp
  have hle := chain_seg_le b.chunks (seg0 :: rest) hp
  have hsum := sum_map_length_le (seg0 :: rest) hle
  have hbe : backtraceElems (some b.chunks) =
      iterElems b.chunks (b.chunks.length * trace_chunk_size + 1) (some 0) 0 := rfl
  rw [hbe]
  rw [iter_chain b.chunks (seg0 :: rest) hp
    (b.chunks.length * trace_chunk_size + 1) 0 0 seg0 hseg0 (by omega)
    (by rw [show trace_chunk_size = 32 from rfl]; omega)
    (by
      have hlen2 : b.chunks.length = rest.length + 1 := by
        rw [hp.hlen]; simp
      simp only [List.map_cons, List.sum_cons, List.length_cons] at hsum
      rw [hlen2]
      simp only [Nat.zero_add, List.drop_succ_cons, List.drop_zero]
      have hmul : (rest.length + 1) * trace_chunk_size =
          rest.length * trace_chunk_size + trace_chunk_size := by ring
      omega)]
  simp

/-! Step equations for the capture loop and its specification companions. -/

theorem captureLoop_cons_stop (env : CaptureEnv) (f : Frame) (fs : List Frame)
    (s : CapState) (hd : env.max_depth ≠ 0 ∧ env.max_depth = s.total_count) :
    captureLoop env (f :: fs) s = s := by
  conv_lhs => rw [captureLoop]
  rw [if_pos hd]

theorem captureLoop_cons_filler (env : CaptureEnv) (f : Frame) (fs : List Frame)
    (s : CapState) (sF sI : Bool)
    (hd : ¬(env.max_depth ≠ 0 ∧ env.max_depth = s.total_count))
    (hcl : classifyFrame env f.method s.skipF s.skipI = (.elideFiller, sF, sI)) :
    captureLoop env (f :: fs) s = captureLoop env fs { s with skipF := sF, skipI := sI } := by
  conv_lhs => rw [captureLoop]
  rw [if_neg hd, hcl]

theorem captureLoop_cons_init (env : CaptureEnv) (f : Frame) (fs : List Frame)
    (s : CapState) (sF sI : Bool)
    (hd : ¬(env.max_depth ≠ 0 ∧ env.max_depth = s.total_count))
    (hcl : classifyFrame env f.method s.skipF s.skipI = (.elideInit, sF, sI)) :
    captureLoop env (f :: fs) s = captureLoop env fs { s with skipF := sF, skipI := sI } := by
  conv_lhs => rw [captureLoop]
  rw [if_neg hd, hcl]

theorem captureLoop_cons_hidden (env : CaptureEnv) (f : Frame) (fs : List Frame)
    (s : CapState) (sF sI : Bool)
    (hd : ¬(env.max_depth ≠ 0 ∧ env.max_depth = s.total_count))
    (hcl : classifyFrame env f.method s.skipF s.skipI = (.elideHidden, sF, sI)) :
    captureLoop env (f :: fs) s = captureLoop env fs
      { bt := if s.total_count = 0 then s.bt.set_has_hidden_top_frame else s.bt
        total_count := s.total_count, skipF := sF, skipI := sI } := by
  conv_lhs => rw [captureLoop]
  rw [if_neg hd, hcl]

theorem captureLoop_cons_record (env : CaptureEnv) (f : Frame) (fs : List Frame)
    (s : CapState) (sF sI : Bool)
    (hd : ¬(env.max_depth ≠ 0 ∧ env.max_depth = s.total_count))
    (hcl : classifyFrame env f.method s.skipF s.skipI = (.record, sF, sI)) :
    captureLoop env (f :: fs) s = captureLoop env fs
      { bt := s.bt.push f.method f.bci, total_count := s.total_count + 1
        skipF := sF, skipI := sI } := by
  conv_lhs => rw [captureLoop]
  rw [if_neg hd, hcl]

theorem specSurvivors_cons_stop (env : CaptureEnv) (f : Frame) (fs : List Frame)
    (sF sI : Bool) (cnt : Nat) (hd : env.max_depth ≠ 0 ∧ env.max_depth = cnt) :
    specSurvivors env (f :: fs) sF sI cnt = [] := by
  conv_lhs => rw [specSurvivors]
  rw [if_pos hd]

theorem specSurvivors_cons_elide (env : CaptureEnv) (f : Frame) (fs : List Frame)
    (sF sI sF' sI' : Bool) (cnt : Nat) (a : FrameAction)
    (hd : ¬(env.max_depth ≠ 0 ∧ env.max_depth = cnt))
    (hne : a ≠ .record)
    (hcl : classifyFrame env f.method sF sI = (a, sF', sI')) :
    specSurvivors env (f :: fs) sF sI cnt = specSurvivors env fs sF' sI' cnt := by
  conv_lhs => rw [specSurvivors]
  rw [if_neg hd, hcl]
  cases a with
  | record => exact absurd rfl hne
  | elideFiller => rfl
  | elideInit => rfl
  | elideHidden => rfl

theorem specSurvivors_cons_record (env : CaptureEnv) (f : Frame) (fs : List Frame)
    (sF sI sF' sI' : Bool) (cnt : Nat)
    (hd : ¬(env.max_depth ≠ 0 ∧ env.max_depth = cnt))
    (hcl : classifyFrame env f.method sF sI = (.record, sF', sI')) :
    specSurvivors env (f :: fs) sF sI cnt = f :: specSurvivors env fs sF' sI' (cnt + 1) := by
  conv_lhs => rw [specSurvivors]
  rw [if_neg hd, hcl]

theorem hiddenTopMarked_cons_stop (env : CaptureEnv) (f : Frame) (fs : List Frame)
    (sF sI : Bool) (cnt : Nat) (hd : env.max_depth ≠ 0 ∧ env.max_depth = cnt) :
    hiddenTopMarked env (f :: fs) sF sI cnt = false := by
  conv_lhs => rw [hiddenTopMarked]
  rw [if_pos hd]

theorem hiddenTopMarked_cons_skip (env : CaptureEnv) (f : Frame) (fs : List Frame)
    (sF sI sF' sI' : Bool) (cnt : Nat) (a : FrameAction)
    (hd : ¬(env.max_depth ≠ 0 ∧ env.max_depth = cnt))
    (hne : a = .elideFiller ∨ a = .elideInit)
    (hcl : classifyFrame env f.method sF sI = (a, sF', sI')) :
    hiddenTopMarked env (f :: fs) sF sI cnt = hiddenTopMarked env fs sF' sI' cnt := by
  conv_lhs => rw [hiddenTopMarked]
  rw [if_neg hd, hcl]
  rcases hne with h | h <;> subst h <;> rfl

theorem hiddenTopMarked_cons_hidden (env : CaptureEnv) (f : Frame) (fs : List Frame)
    (sF sI sF' sI' : Bool) (cnt : Nat)
    (hd : ¬(env.max_depth ≠ 0 ∧ env.max_depth = cnt))
    (hcl : classifyFrame env f.method sF sI = (.elideHidden, sF', sI')) :
    hiddenTopMarked env (f :: fs) sF sI cnt =
      (decide (cnt = 0) || hiddenTopMarked env fs sF' sI' cnt) := by
  conv_lhs => rw [hiddenTopMarked]
  rw [if_neg hd, hcl]

theorem hiddenTopMarked_cons_record (env : CaptureEnv) (f : Frame) (fs : List Frame)
    (sF sI sF' sI' : Bool) (cnt : Nat)
    (hd : ¬(env.max_depth ≠ 0 ∧ env.max_depth = cnt))
    (hcl : classifyFrame env f.method sF sI = (.record, sF', sI')) :
    hiddenTopMarked env (f :: fs) sF sI cnt = hiddenTopMarked env fs sF' sI' (cnt + 1) := by
  conv_lhs => rw [hiddenTopMarked]
  rw [if_neg hd, hcl]

/-- The capture loop refines the specification survivors: starting from any
builder state realizing `segs`, the final builder realizes exactly the old
records followed by the surviving frames' records, and `total_count` counts
them. -/
theorem captureLoop_spec (env : CaptureEnv) :
    ∀ (frames : List Frame) (s : CapState) (segs : List (List Rec)),
      BuilderInv s.bt segs →
      s.total_count = segs.flatten.length →
      ∃ segs',
        BuilderInv (captureLoop env frames s).bt segs' ∧
        (captureLoop env frames s).total_count = segs'.flatten.length ∧
        segs'.flatten = segs.flatten ++
          (specSurvivors env frames s.skipF s.skipI s.total_count).map
            (fun g => recOf g.method g.bci) := by
  intro frames
  induction frames with
  | nil =>
    intro s segs hb hcnt
    exact ⟨segs, hb, hcnt, by simp [specSurvivors]⟩
  | cons f fs ih =>
    intro s segs hb hcnt
    by_cases hd : env.max_depth ≠ 0 ∧ env.max_depth = s.total_count
    · rw [captureLoop_cons_stop env f fs s hd,
        specSurvivors_cons_stop env f fs s.skipF s.skipI s.total_count hd]
      exact ⟨segs, hb, hcnt, by simp⟩
    · rcases hcl : classifyFrame env f.method s.skipF s.skipI with ⟨act, sF, sI⟩
      cases act with
      | elideFiller =>
        rw [captureLoop_cons_filler env f fs s sF sI hd hcl,
          specSurvivors_cons_elide env f fs s.skipF s.skipI sF sI s.total_count
            .elideFiller hd (by simp) hcl]
        exact ih { s with skipF := sF, skipI := sI } segs hb hcnt
      | elideInit =>
        rw [captureLoop_cons_init env f fs s sF sI hd hcl,
          specSurvivors_cons_elide env f fs s.skipF s.skipI sF sI s.total_count
            .elideInit hd (by simp) hcl]
        exact ih { s with skipF := sF, skipI := sI } segs hb hcnt
      | elideHidden =>
        rw [captureLoop_cons_hidden env f fs s sF sI hd hcl,
          specSurvivors_cons_elide env f fs s.skipF s.skipI sF sI s.total_count
            .elideHidden hd (by simp) hcl]
        refine ih _ segs ?_ hcnt
        by_cases hz : s.total_count = 0
        · simp only [hz, if_pos]
          simpa using set_hidden_BuilderInv s.bt segs hb
        · simpa [hz] using hb
      | record =>
        rw [captureLoop_cons_record env f fs s sF sI hd hcl,
          specSurvivors_cons_record env f fs s.skipF s.skipI sF sI s.total_count hd hcl]
        obtain ⟨segs', h1, h2, h3⟩ := ih
          { bt := s.bt.push f.method f.bci, total_count := s.total_count + 1,
            skipF := sF, skipI := sI }
          (pushSegs segs (recOf f.method f.bci))
          (push_BuilderInv s.bt segs f.method f.bci hb)
          (by rw [flatten_pushSegs]; simp [hcnt])
        refine ⟨segs', h1, h2, ?_⟩
        rw [h3, flatten_pushSegs]
        simp

/-! Monotonicity of the two elision check flags, and the hidden-top-frame
marker's behaviour through the loop. -/

theorem classifyFrame_mono (env : CaptureEnv) (m : MethodRec) (sF sI : Bool) :
    sF ≤ (classifyFrame env m sF sI).2.1 ∧ sI ≤ (classifyFrame env m sF sI).2.2 := by
  unfold classifyFrame
  split_ifs <;> simp

theorem captureLoop_skip_mono (env : CaptureEnv) :
    ∀ (frames : List Frame) (s : CapState),
      s.skipF ≤ (captureLoop env frames s).skipF ∧
      s.skipI ≤ (captureLoop env frames s).skipI := by
  intro frames
  induction frames with
  | nil => intro s; exact ⟨le_refl _, le_refl _⟩
  | cons f fs ih =>
    intro s
    by_cases hd : env.max_depth ≠ 0 ∧ env.max_depth = s.total_count
    · rw [captureLoop_cons_stop env f fs s hd]
      exact ⟨le_refl _, le_refl _⟩
    · have hmono := classifyFrame_mono env f.method s.skipF s.skipI
      rcases hcl : classifyFrame env f.method s.skipF s.skipI with ⟨act, sF, sI⟩
      rw [hcl] at hmono
      simp only at hmono
      cases act with
      | elideFiller =>
        rw [captureLoop_cons_filler env f fs s sF sI hd hcl]
        have := ih { s with skipF := sF, skipI := sI }
        exact ⟨le_trans hmono.1 this.1, le_trans hmono.2 this.2⟩
      | elideInit =>
        rw [captureLoop_cons_init env f fs s sF sI hd hcl]
        have := ih { s with skipF := sF, skipI := sI }
        exact ⟨le_trans hmono.1 this.1, le_trans hmono.2 this.2⟩
      | elideHidden =>
        rw [captureLoop_cons_hidden env f fs s sF sI hd hcl]
        have hstep := ih
          { bt := if s.total_count = 0 then s.bt.set_has_hidden_top_frame else s.bt
            total_count := s.total_count
            skipF := sF
            skipI := sI }
        exact ⟨le_trans hmono.1 hstep.1, le_trans hmono.2 hstep.2⟩
      | record =>
        rw [captureLoop_cons_record env f fs s sF sI hd hcl]
        have hstep := ih
          { bt := s.bt.push f.method f.bci
            total_count := s.total_count + 1
            skipF := sF
            skipI := sI }
        exact ⟨le_trans hmono.1 hstep.1, le_trans hmono.2 hstep.2⟩

theorem expand_hasHidden (b : BacktraceBuilder) :
    (b.expand).hasHiddenTopFrame = b.hasHiddenTopFrame := rfl

theorem pushWrite_hasHidden (b : BacktraceBuilder) (r : Rec) :
    (b.pushWrite r).hasHiddenTopFrame = b.hasHiddenTopFrame := by
  unfold BacktraceBuilder.pushWrite
  rcases b.headIdx with _ | h <;> rfl

theorem push_hasHidden (b : BacktraceBuilder) (m : MethodRec) (bci : Int) :
    (b.push m bci).hasHiddenTopFrame = b.hasHiddenTopFrame := by
  unfold BacktraceBuilder.push
  by_cases hc : trace_chunk_size ≤ b.index
  · rw [if_pos hc, pushWrite_hasHidden, expand_hasHidden]
  · rw [if_neg hc, pushWrite_hasHidden]

theorem expand_headIdx (b : BacktraceBuilder) :
    (b.expand).headIdx = some b.chunks.length := rfl

theorem pushWrite_headIdx (b : BacktraceBuilder) (r : Rec) :
    (b.pushWrite r).headIdx = b.headIdx := by
  unfold BacktraceBuilder.pushWrite
  rcases hh : b.headIdx with _ | h
  · exact hh
  · rfl

theorem push_headIdx_isSome (b : BacktraceBuilder) (m : MethodRec) (bci : Int)
    (h : b.headIdx.isSome = true) : (b.push m bci).headIdx.isSome = true := by
  unfold BacktraceBuilder.push
  by_cases hc : trace_chunk_size ≤ b.index
  · rw [if_pos hc, pushWrite_headIdx, expand_headIdx]
    rfl
  · rw [if_neg hc, pushWrite_headIdx]
    exact h

theorem set_hidden_headIdx (b : BacktraceBuilder) :
    (b.set_has_hidden_top_frame).headIdx = b.headIdx := by
  unfold BacktraceBuilder.set_has_hidden_top_frame
  by_cases hflag : b.hasHiddenTopFrame
  · rw [if_pos hflag]
  · rw [if_neg hflag]
    rcases hh : b.headIdx with _ | h
    · exact hh
    · rfl

theorem set_hidden_flag (b : BacktraceBuilder) (h : b.headIdx.isSome = true) :
    (b.set_has_hidden_top_frame).hasHiddenTopFrame = true := by
  unfold BacktraceBuilder.set_has_hidden_top_frame
  by_cases hflag : b.hasHiddenTopFrame
  · rw [if_pos hflag]
    exact hflag
  · rw [if_neg hflag]
    obtain ⟨hh, hhh⟩ := Option.isSome_iff_exists.mp h
    rw [hhh]

/-- Through the whole loop, the hidden-top-frame marker of the builder is set
exactly when it was already set or a suppressed hidden frame was met while
`total_count` was zero. -/
theorem captureLoop_marker (env : CaptureEnv) :
    ∀ (frames : List Frame) (s : CapState), s.bt.headIdx.isSome = true →
      (captureLoop env frames s).bt.hasHiddenTopFrame =
        (s.bt.hasHiddenTopFrame ||
          hiddenTopMarked env frames s.skipF s.skipI s.total_count) := by
  intro frames
  induction frames with
  | nil =>
    intro s hsome
    simp [captureLoop, hiddenTopMarked]
  | cons f fs ih =>
    intro s hsome
    by_cases hd : env.max_depth ≠ 0 ∧ env.max_depth = s.total_count
    · rw [captureLoop_cons_stop env f fs s hd,
        hiddenTopMarked_cons_stop env f fs s.skipF s.skipI s.total_count hd]
      simp
    · rcases hcl : classifyFrame env f.method s.skipF s.skipI with ⟨act, sF, sI⟩
      cases act with
      | elideFiller =>
        rw [captureLoop_cons_filler env f fs s sF sI hd hcl,
          hiddenTopMarked_cons_skip env f fs s.skipF s.skipI sF sI s.total_count
            .elideFiller hd (Or.inl rfl) hcl]
        exact ih { s with skipF := sF, skipI := sI } hsome
      | elideInit =>
        rw [captureLoop_cons_init env f fs s sF sI hd hcl,
          hiddenTopMarked_cons_skip env f fs s.skipF s.skipI sF sI s.total_count
            .elideInit hd (Or.inr rfl) hcl]
        exact ih { s with skipF := sF, skipI := sI } hsome
      | elideHidden =>
        rw [captureLoop_cons_hidden env f fs s sF sI hd hcl,
          hiddenTopMarked_cons_hidden env f fs s.skipF s.skipI sF sI s.total_count hd hcl]
        by_cases hz : s.total_count = 0
        · have hih := ih
            { bt := s.bt.set_has_hidden_top_frame, total_count := s.total_count,
              skipF := sF, skipI := sI }
            (by simpa [set_hidden_headIdx] using hsome)
          simp only [hz, if_true, decide_True] at hih ⊢
          rw [hih, set_hidden_flag s.bt hsome]
          simp
        · have hih := ih
            { bt := s.bt, total_count := s.total_count, skipF := sF, skipI := sI } hsome
          simp only [if_neg hz]
          rw [hih]
          simp [hz]
      | record =>
        rw [captureLoop_cons_record env f fs s sF sI hd hcl]
        rw [hiddenTopMarked_cons_record env f fs s.skipF s.skipI sF sI s.total_count hd hcl]
        have hih := ih
          { bt := s.bt.push f.method f.bci, total_count := s.total_count + 1,
            skipF := sF, skipI := sI }
          (push_headIdx_isSome s.bt f.method f.bci hsome)
        simp only at hih
        rw [hih, push_hasHidden]

theorem classifyFrame_record_not_hidden (env : CaptureEnv) (m : MethodRec)
    (sF sI x y : Bool) (hsh : env.show_hidden_frames = false)
    (h : classifyFrame env m sF sI = (.record, x, y)) : m.is_hidden = false := by
  unfold classifyFrame at h
  split_ifs at h with h1 h2 h3
  · exact absurd h (by simp)
  · exact absurd h (by simp)
  · exact absurd h (by simp)
  · simpa [hsh] using h3

/-- With hidden-frame suppression on, no surviving frame is hidden. -/
theorem specSurvivors_not_hidden (env : CaptureEnv)
    (hsh : env.show_hidden_frames = false) :
    ∀ (frames : List Frame) (sF sI : Bool) (cnt : Nat),
      ∀ f ∈ specSurvivors env frames sF sI cnt, f.method.is_hidden = false := by
  intro frames
  induction frames with
  | nil =>
    intro sF sI cnt f hf
    simp [specSurvivors] at hf
  | cons g fs ih =>
    intro sF sI cnt f hf
    by_cases hd : env.max_depth ≠ 0 ∧ env.max_depth = cnt
    · rw [specSurvivors_cons_stop env g fs sF sI cnt hd] at hf
      simp at hf
    · rcases hcl : classifyFrame env g.method sF sI with ⟨act, sF', sI'⟩
      cases act with
      | elideFiller =>
        rw [specSurvivors_cons_elide env g fs sF sI sF' sI' cnt .elideFiller hd
          (by simp) hcl] at hf
        exact ih sF' sI' cnt f hf
      | elideInit =>
        rw [specSurvivors_cons_elide env g fs sF sI sF' sI' cnt .elideInit hd
          (by simp) hcl] at hf
        exact ih sF' sI' cnt f hf
      | elideHidden =>
        rw [specSurvivors_cons_elide env g fs sF sI sF' sI' cnt .elideHidden hd
          (by simp) hcl] at hf
        exact ih sF' sI' cnt f hf
      | record =>
        rw [specSurvivors_cons_record env g fs sF sI sF' sI' cnt hd hcl] at hf
        rcases List.mem_cons.mp hf with hfg | hmem
        · subst hfg
          exact classifyFrame_record_not_hidden env f.method sF sI sF' sI' hsh hcl
        · exact ih sF' sI' (cnt + 1) f hmem

/-! Claim theorems. -/

theorem expand_eq (b : BacktraceBuilder) (i : Nat) (h : b.headIdx = some i) :
    b.expand =
      { chunks := updateAt (b.chunks ++ [ChunkData.fresh]) i
          (fun ch => { ch with nextIdx := some b.chunks.length })
        headIdx := some b.chunks.length
        index := 0
        hasHiddenTopFrame := b.hasHiddenTopFrame
        allocCount := b.allocCount + 1 } := by
  unfold BacktraceBuilder.expand
  rw [h]

/-- C10: `set_has_hidden_top_frame` is idempotent: calling it twice leaves the
builder (store contents, marker and allocation count included) in exactly the
state a single call produces; when the marker is already set the second call
does nothing and allocates nothing. -/
theorem set_has_hidden_top_frame_idempotent (b : BacktraceBuilder) :
    (b.set_has_hidden_top_frame).set_has_hidden_top_frame = b.set_has_hidden_top_frame := by
  by_cases hflag : b.hasHiddenTopFrame = true
  · have h1 : b.set_has_hidden_top_frame = b := by
      unfold BacktraceBuilder.set_has_hidden_top_frame
      rw [if_pos hflag]
    rw [h1]
    exact h1
  · rcases hh : b.headIdx with _ | i
    · have h1 : b.set_has_hidden_top_frame = b := by
        unfold BacktraceBuilder.set_has_hidden_top_frame
        rw [if_neg hflag, hh]
      rw [h1]
      exact h1
    · have h1 : b.set_has_hidden_top_frame =
          { b with
            hasHiddenTopFrame := true
            allocCount := b.allocCount + 1
            chunks := updateAt b.chunks i (fun ch => { ch with hidden := some true }) } := by
        unfold BacktraceBuilder.set_has_hidden_top_frame
        rw [if_neg hflag, hh]
      rw [h1]
      unfold BacktraceBuilder.set_has_hidden_top_frame
      rw [if_pos rfl]

/-- C3 counterexample: expanding a freshly constructed builder allocates a
second chunk whose own next link is null, while the PREVIOUS head (chunk 0)
is linked to the new chunk — the opposite of the claimed newest-to-previous
linking. -/
theorem expand_links_counterexample :
    ((BacktraceBuilder.mkNew.expand).chunks[1]?).map ChunkData.nextIdx = some none ∧
    ((BacktraceBuilder.mkNew.expand).chunks[0]?).map ChunkData.nextIdx = some (some 1) ∧
    ¬(((BacktraceBuilder.mkNew.expand).chunks[1]?).map ChunkData.nextIdx =
        some (some 0)) := by
  decide

/-- C3 (amended): every `expand` call allocates exactly one new chunk and
links it as the new head; the new chunk's next link is null, and it is the
previous head chunk whose next link is set to point at the new chunk, so
chunks are chained oldest-to-newest and iteration starts at the
first-allocated chunk. -/
theorem expand_allocates_and_links (b : BacktraceBuilder) (i : Nat)
    (h : b.headIdx = some i) (hi : i < b.chunks.length) :
    (b.expand).chunks.length = b.chunks.length + 1 ∧
    (b.expand).headIdx = some b.chunks.length ∧
    ((b.expand).chunks[b.chunks.length]?).map ChunkData.nextIdx = some none ∧
    ((b.expand).chunks[i]?).map ChunkData.nextIdx = some (some b.chunks.length) := by
  rw [expand_eq b i h]
  refine ⟨?_, rfl, ?_, ?_⟩
  · show (updateAt (b.chunks ++ [ChunkData.fresh]) i _).length = _
    rw [updateAt_length]
    simp
  · show ((updateAt (b.chunks ++ [ChunkData.fresh]) i _)[b.chunks.length]?).map _ = _
    rw [getElem?_updateAt_ne _ _ _ _ (by omega), List.getElem?_concat_length]
    rfl
  · show ((updateAt (b.chunks ++ [ChunkData.fresh]) i _)[i]?).map _ = _
    rw [getElem?_updateAt_eq, List.getElem?_append, if_pos hi,
      List.getElem?_eq_getElem hi]
    rfl

theorem expand_allocates_and_links_witness :
    (BacktraceBuilder.mkNew.expand).chunks.length = BacktraceBuilder.mkNew.chunks.length + 1 ∧
    (BacktraceBuilder.mkNew.expand).headIdx = some BacktraceBuilder.mkNew.chunks.length ∧
    ((BacktraceBuilder.mkNew.expand).chunks[BacktraceBuilder.mkNew.chunks.length]?).map
      ChunkData.nextIdx = some none ∧
    ((BacktraceBuilder.mkNew.expand).chunks[0]?).map ChunkData.nextIdx =
      some (some BacktraceBuilder.mkNew.chunks.length) :=
  expand_allocates_and_links BacktraceBuilder.mkNew 0 rfl (by decide)

/-- C4 counterexample: after 32 pushes the cursor sits at the chunk capacity
and the store still has one chunk; the 33rd `push` itself grows the store to
two chunks, so `push` does handle chunk overflow rather than requiring the
caller to call `expand()` first. -/
theorem push_overflow_counterexample :
    fullBuilder.index = trace_chunk_size ∧
    fullBuilder.chunks.length = 1 ∧
    (fullBuilder.push sampleMethod 0).chunks.length = 2 := by
  decide

/-- C4 (amended): `push` handles chunk overflow itself: when the write cursor
has reached `CHUNK_CAPACITY` it first expands (allocating and linking one new
chunk) and then writes at cursor 0 of the new chunk; below capacity it writes
at the current cursor of the head chunk without allocating. -/
theorem push_handles_overflow (b : BacktraceBuilder) (m : MethodRec) (bci : Int)
    (h : b.headIdx.isSome = true) :
    (b.push m bci).chunks.length =
      (if trace_chunk_size ≤ b.index then b.chunks.length + 1 else b.chunks.length) ∧
    (b.push m bci).index = (if trace_chunk_size ≤ b.index then 1 else b.index + 1) := by
  obtain ⟨i, hi⟩ := Option.isSome_iff_exists.mp h
  unfold BacktraceBuilder.push
  by_cases hc : trace_chunk_size ≤ b.index
  · simp only [if_pos hc]
    rw [expand_eq b i hi]
    constructor
    · show (updateAt (updateAt (b.chunks ++ [ChunkData.fresh]) i
          (fun ch => { ch with nextIdx := some b.chunks.length })) b.chunks.length
          (fun ch => ch.write 0 (recOf m bci))).length = b.chunks.length + 1
      rw [updateAt_length, updateAt_length]
      simp
    · rfl
  · simp only [if_neg hc]
    constructor
    · unfold BacktraceBuilder.pushWrite
      rw [hi]
      show (updateAt b.chunks i _).length = _
      rw [updateAt_length]
    · unfold BacktraceBuilder.pushWrite
      rw [hi]

theorem push_handles_overflow_witness :
    (BacktraceBuilder.mkNew.push sampleMethod 0).chunks.length =
      (if trace_chunk_size ≤ BacktraceBuilder.mkNew.index
       then BacktraceBuilder.mkNew.chunks.length + 1
       else BacktraceBuilder.mkNew.chunks.length) ∧
    (BacktraceBuilder.mkNew.push sampleMethod 0).index =
      (if trace_chunk_size ≤ BacktraceBuilder.mkNew.index then 1
       else BacktraceBuilder.mkNew.index + 1) :=
  push_handles_overflow BacktraceBuilder.mkNew sampleMethod 0 rfl

/-- C2: when the stored method slot does not resolve to a method of the
stored class version (`version_matches` fails, e.g. after redefinition),
materialization writes a null source file and the -1 "unknown/redefined"
line-number marker, and takes no other action for this case; in particular
it never reaches the line-number computation, which runs only for a
version-matching method. -/
theorem fill_in_redefined_marker (env : MaterializeEnv) (e : StackTraceElement)
    (holder : Mirror) (method : Option ResolvedMethod) (version bci : Nat) (name : Nat)
    (h : version_matches method version = false) :
    (StackTraceElement_fill_in env e holder method version bci name).1.fileName = none ∧
    (StackTraceElement_fill_in env e holder method version bci name).1.lineNumber = -1 := by
  cases method with
  | none => exact ⟨rfl, rfl⟩
  | some m =>
    have hv : (m.version == version) = false := by
      simpa [version_matches] using h
    simp only [StackTraceElement_fill_in, hv]
    simp

theorem fill_in_redefined_marker_witness :
    (StackTraceElement_fill_in sampleMatEnv sampleSTE 5 none 3 0 11).1.fileName = none ∧
    (StackTraceElement_fill_in sampleMatEnv sampleSTE 5 none 3 0 11).1.lineNumber = -1 :=
  fill_in_redefined_marker sampleMatEnv sampleSTE 5 none 3 0 11 (by decide)

/-- C8: structured-array extraction signals an error — never a silently
truncated or padded result — whenever the throwable handle is null, the
destination array handle is null, or the destination length differs from the
recorded depth (a null throwable or array raises `NullPointerException`, a
length mismatch `IndexOutOfBoundsException`), for every depth. -/
theorem get_stack_trace_elements_boundary (env : MaterializeEnv)
    (throwable : Option Throwable)
    (stack_trace_array : Option (List (Option StackTraceElement)))
    (h : throwable = none ∨ stack_trace_array = none ∨
      ∃ t a, throwable = some t ∧ stack_trace_array = some a ∧ a.length ≠ t.depth) :
    resultIsError (get_stack_trace_elements env throwable stack_trace_array) = true := by
  rcases h with h | h | ⟨t, a, ht, ha, hlen⟩
  · subst h
    rfl
  · subst h
    cases throwable with
    | none => rfl
    | some t => rfl
  · subst ht
    subst ha
    show resultIsError
      (if a.length ≠ t.depth then Except.error VMError.IndexOutOfBoundsException
       else fillElementsLoop env (backtraceElems t.backtrace) a 0) = true
    rw [if_pos hlen]
    rfl

theorem get_stack_trace_elements_boundary_witness :
    resultIsError (get_stack_trace_elements sampleMatEnv (some sampleThrowable)
      (some [])) = true :=
  get_stack_trace_elements_boundary sampleMatEnv (some sampleThrowable) (some [])
    (Or.inr (Or.inr ⟨sampleThrowable, [], rfl, rfl, by decide⟩))

/-- C1: for a fresh capture over walked frames whose count stays within the
configured maximum depth (0 meaning unlimited), the depth recorded on the
throwable equals the number of frames surviving elision and hidden-frame
suppression — exactly the frames pushed into the store — and iterating the
attached store yields exactly those frames' elements in walk order,
innermost first. -/
theorem fill_in_depth_and_iteration (env : CaptureEnv) (method : Option MethodRec)
    (frames : List Frame) (tw : Throwable)
    (hen : env.stackTraceInThrowable = true)
    (hd : env.max_depth = 0 ∨ frames.length ≤ env.max_depth) :
    (fill_in_stack_trace env true method frames tw).depth =
      (specSurvivors env frames false false 0).length ∧
    backtraceElems (fill_in_stack_trace env true method frames tw).backtrace =
      (specSurvivors env frames false false 0).map
        (fun f => elemOf (recOf f.method f.bci)) := by
  obtain ⟨segs', h1, h2, h3⟩ := captureLoop_spec env frames
    { bt := BacktraceBuilder.mkNew, total_count := 0, skipF := false, skipI := false }
    [[]] BuilderInv_mkNew (by simp)
  have hfe : fill_in_stack_trace env true method frames tw =
      { backtrace := some ((captureLoop env frames
            { bt := BacktraceBuilder.mkNew, total_count := 0, skipF := false,
              skipI := false }).bt.chunks)
        stackTrace := none
        depth := (captureLoop env frames
            { bt := BacktraceBuilder.mkNew, total_count := 0, skipF := false,
              skipI := false }).total_count } := by
    unfold fill_in_stack_trace
    rw [hen]
    rfl
  rw [hfe]
  simp only at h3
  constructor
  · show (captureLoop env frames
        { bt := BacktraceBuilder.mkNew, total_count := 0, skipF := false,
          skipI := false }).total_count = _
    rw [h2, h3]
    simp
  · show backtraceElems (some ((captureLoop env frames
        { bt := BacktraceBuilder.mkNew, total_count := 0, skipF := false,
          skipI := false }).bt.chunks)) = _
    rw [backtraceElems_of_BuilderInv _ segs' h1, h3]
    simp [List.map_map, Function.comp]

theorem fill_in_depth_and_iteration_witness :
    (fill_in_stack_trace sampleEnv true none
        [⟨sampleMethod, 4⟩, ⟨sampleHiddenMethod, 2⟩] sampleThrowable).depth =
      (specSurvivors sampleEnv [⟨sampleMethod, 4⟩, ⟨sampleHiddenMethod, 2⟩]
        false false 0).length ∧
    backtraceElems (fill_in_stack_trace sampleEnv true none
        [⟨sampleMethod, 4⟩, ⟨sampleHiddenMethod, 2⟩] sampleThrowable).backtrace =
      (specSurvivors sampleEnv [⟨sampleMethod, 4⟩, ⟨sampleHiddenMethod, 2⟩]
        false false 0).map (fun f => elemOf (recOf f.method f.bci)) :=
  fill_in_depth_and_iteration sampleEnv none
    [⟨sampleMethod, 4⟩, ⟨sampleHiddenMethod, 2⟩] sampleThrowable rfl
    (Or.inr (by decide))

/-- C5 counterexample: with the maximum depth configured as 0 (unlimited), no
live Java frames, and a supplied synthetic method, `fill_in_stack_trace`
pushes nothing at all — the guard `max_depth >= 1` excludes the unlimited
setting — leaving the backtrace null and the depth field untouched, not 1. -/
theorem no_frame_unlimited_counterexample :
    (fill_in_stack_trace sampleEnvUnlimited false (some sampleMethod) []
      sampleThrowable).depth ≠ 1 ∧
    (fill_in_stack_trace sampleEnvUnlimited false (some sampleMethod) []
      sampleThrowable).backtrace = none := by
  decide

/-- C5 (amended): when there are no live Java frames and the caller supplied
a synthetic method, exactly one frame for that method is pushed at bci 0 and
the recorded depth is 1 — for every configured maximum depth of at least 1;
with the unlimited setting 0 the guard `max_depth >= 1` fails and nothing is
recorded. -/
theorem no_frame_single_push (env : CaptureEnv) (m : MethodRec) (tw : Throwable)
    (hen : env.stackTraceInThrowable = true) (hd : 1 ≤ env.max_depth) :
    (fill_in_stack_trace env false (some m) [] tw).depth = 1 ∧
    backtraceElems (fill_in_stack_trace env false (some m) [] tw).backtrace =
      [elemOf (recOf m 0)] := by
  have hfe : fill_in_stack_trace env false (some m) [] tw =
      { backtrace := some ((BacktraceBuilder.mkNew.push m 0).chunks)
        stackTrace := none
        depth := 1 } := by
    unfold fill_in_stack_trace
    rw [hen]
    show (if 1 ≤ env.max_depth then _ else _) = _
    rw [if_pos hd]
  rw [hfe]
  refine ⟨rfl, ?_⟩
  have hbi := push_BuilderInv BacktraceBuilder.mkNew [[]] m 0 BuilderInv_mkNew
  show backtraceElems (some ((BacktraceBuilder.mkNew.push m 0).chunks)) = _
  rw [backtraceElems_of_BuilderInv _ _ hbi, flatten_pushSegs]
  simp

theorem no_frame_single_push_witness :
    (fill_in_stack_trace sampleEnv false (some sampleMethod) [] sampleThrowable).depth = 1 ∧
    backtraceElems (fill_in_stack_trace sampleEnv false (some sampleMethod) []
      sampleThrowable).backtrace = [elemOf (recOf sampleMethod 0)] :=
  no_frame_single_push sampleEnv sampleMethod sampleThrowable rfl (by decide)

/-- C6: the two elision states are monotone through a capture pass: in code
polarity, once `skip_fillInStackTrace_check` (here `skipF`) or
`skip_throwableInit_check` (here `skipI`) has become true — "still skipping"
has flipped to false — it remains true for the entire remainder of the loop,
whatever frames follow, so no later frame is re-checked against the filler or
constructor rule. -/
theorem capture_skip_flags_monotone (env : CaptureEnv) (frames : List Frame)
    (s : CapState) :
    s.skipF ≤ (captureLoop env frames s).skipF ∧
    s.skipI ≤ (captureLoop env frames s).skipI :=
  captureLoop_skip_mono env frames s

/-- C7: with hidden-frame suppression enabled (`ShowHiddenFrames` off), every
hidden frame is dropped — no surviving frame is hidden — and the one-shot
hidden-top-frame marker ends up set exactly when it was already set or some
suppressed hidden frame was encountered while no frame had yet been
recorded; hidden frames met after the first recorded frame change nothing. -/
theorem hidden_frames_suppressed (env : CaptureEnv) (frames : List Frame)
    (s : CapState) (hsh : env.show_hidden_frames = false)
    (hsome : s.bt.headIdx.isSome = true) :
    ((specSurvivors env frames s.skipF s.skipI s.total_count).all
      (fun f => !f.method.is_hidden)) = true ∧
    (captureLoop env frames s).bt.hasHiddenTopFrame =
      (s.bt.hasHiddenTopFrame ||
        hiddenTopMarked env frames s.skipF s.skipI s.total_count) := by
  constructor
  · rw [List.all_eq_true]
    intro f hf
    have := specSurvivors_not_hidden env hsh frames s.skipF s.skipI s.total_count f hf
    simp [this]
  · exact captureLoop_marker env frames s hsome

theorem hidden_frames_suppressed_witness :
    ((specSurvivors sampleEnv [⟨sampleHiddenMethod, 0⟩, ⟨sampleMethod, 1⟩]
        false false 0).all (fun f => !f.method.is_hidden)) = true ∧
    (captureLoop sampleEnv [⟨sampleHiddenMethod, 0⟩, ⟨sampleMethod, 1⟩]
        { bt := BacktraceBuilder.mkNew, total_count := 0, skipF := false,
          skipI := false }).bt.hasHiddenTopFrame =
      (BacktraceBuilder.mkNew.hasHiddenTopFrame ||
        hiddenTopMarked sampleEnv [⟨sampleHiddenMethod, 0⟩, ⟨sampleMethod, 1⟩]
          false false 0) :=
  hidden_frames_suppressed sampleEnv [⟨sampleHiddenMethod, 0⟩, ⟨sampleMethod, 1⟩]
    { bt := BacktraceBuilder.mkNew, total_count := 0, skipF := false, skipI := false }
    rfl rfl

theorem fill_in_E_failed (ok : Nat → Bool) (env : CaptureEnv) (hasF : Bool)
    (method : Option MethodRec) (frames : List Frame) (tw : Throwable)
    (h : (fill_in_stack_trace_E ok env hasF method frames tw).2 = true) :
    (fill_in_stack_trace_E ok env hasF method frames tw).1 =
      { tw with backtrace := none, stackTrace := none } := by
  cases hen : env.stackTraceInThrowable with
  | false => simp [fill_in_stack_trace_E, hen] at h
  | true =>
    rcases hmk : BacktraceBuilder.mkNewE ok with e | bt
    · simp [fill_in_stack_trace_E, hen, hmk]
    · cases hasF with
      | true =>
        rcases hcl : captureLoopE ok env frames
            { bt := bt, total_count := 0, skipF := false, skipI := false } with e2 | s
        · simp [fill_in_stack_trace_E, hen, hmk, hcl]
        · simp [fill_in_stack_trace_E, hen, hmk, hcl] at h
      | false =>
        by_cases hmd : 1 ≤ env.max_depth
        · cases method with
          | none => simp [fill_in_stack_trace_E, hen, hmk, hmd] at h
          | some m =>
            rcases hps : bt.pushE ok m 0 with e2 | bt2
            · simp [fill_in_stack_trace_E, hen, hmk, hmd, hps]
            · simp [fill_in_stack_trace_E, hen, hmk, hmd, hps] at h
        · simp [fill_in_stack_trace_E, hen, hmk, hmd] at h

/-- C9: a capture during which an internal allocation failure occurs never
raises an exception to the caller of the no-TRAPS wrapper — the wrapper's
pending-exception state is exactly what it was on entry — and the throwable
under construction is left with an absent trace: its backtrace and Java-level
stack trace fields are null, never partially-attached state. -/
theorem capture_failure_suppressed (ok : Nat → Bool) (env : CaptureEnv)
    (should_fill hasF : Bool) (method : Option MethodRec) (frames : List Frame)
    (tw : Throwable) (pending : Bool)
    (h : (fill_in_stack_trace_E ok env hasF method frames tw).2 = true) :
    (fill_in_stack_trace_suppress ok env should_fill hasF method frames tw
      pending).2 = pending ∧
    (fill_in_stack_trace_E ok env hasF method frames tw).1.backtrace = none ∧
    (fill_in_stack_trace_E ok env hasF method frames tw).1.stackTrace = none := by
  refine ⟨?_, ?_, ?_⟩
  · unfold fill_in_stack_trace_suppress
    split_ifs <;> rfl
  · rw [fill_in_E_failed ok env hasF method frames tw h]
  · rw [fill_in_E_failed ok env hasF method frames tw h]

theorem capture_failure_suppressed_witness :
    (fill_in_stack_trace_suppress (fun _ => false) sampleEnv true true none []
      sampleThrowable false).2 = false ∧
    (fill_in_stack_trace_E (fun _ => false) sampleEnv true none []
      sampleThrowable).1.backtrace = none ∧
    (fill_in_stack_trace_E (fun _ => false) sampleEnv true none []
      sampleThrowable).1.stackTrace = none :=
  capture_failure_suppressed (fun _ => false) sampleEnv true true none []
    sampleThrowable false (by decide)

end JavaClasses
